import Mathlib

/-!
# Tonance: accrual, staking and referral cascade

A shallow embedding of `src/models/User.js` and of the controllers that drive
it (`src/controller/userController.js`, `src/controller/stakeController.js`,
`src/controller/leaderboardController.js`).

Conventions of the embedding.

* A JavaScript `Number` is a rational (`ℚ`). In `calculateEarnings`, where the
  rounding decides the result, every arithmetic operation is rounded as IEEE-754
  binary64 does (`roundDouble`); elsewhere (credits, debits, interest) the
  arithmetic is exact. `Math.floor` is `Int.floor`.
* A `Date` is its millisecond timestamp (`Int`). Every `new Date()` /
  `Date.now()` of one method call reads the same clock value `now`, which is an
  argument of the embedded method.
* A Mongoose document is a structure; a method that mutates `this` returns the
  new document (and its return value, when it has one).
* A collection is a list of documents; the `_id` of a document is its position
  in the collection, so a new document gets the next free position.
* A method that throws returns `Except.error`; every `throw` of the embedded
  methods comes before the first mutation, so an error leaves the state as it
  was.
-/

namespace Tonance

/-- Mongoose `ObjectId`: the position of the document in its collection. -/
abbrev ObjectId := Nat

/-- JavaScript `Date`, as milliseconds since the epoch. -/
abbrev Date := Int

/-- Document of `StakeSchema` (`src/models/User.js`, lines 4-30). -/
structure Stake where
  user : ObjectId
  amount : ℚ
  period : Int
  interestRate : ℚ
  endDate : Date
  claimed : Bool
  deriving DecidableEq, Repr

/-- Document of `UserSchema` (`src/models/User.js`, lines 32-100). -/
structure User where
  telegramUserId : String
  username : String
  role : String
  balance : ℚ
  lastClaimTime : Option Date
  lastStartTime : Option Date
  roleExpiryDate : Option Date
  isEarning : Bool
  referredBy : Option ObjectId
  referrals : List ObjectId
  joinBonus : ℚ
  totalEarnings : ℚ
  gameScore : ℚ
  tasksCompleted : List ObjectId
  stakes : List ObjectId
  lastActive : Date
  deriving DecidableEq, Repr

/-- Schema defaults of the `new User(...)` of `registerUser`, created at clock
value `now`. -/
def User.create (telegramUserId username : String) (referredBy : Option ObjectId)
    (now : Date) : User :=
  { telegramUserId := telegramUserId
    username := username
    role := "User"
    balance := 0
    lastClaimTime := none
    lastStartTime := none
    roleExpiryDate := none
    isEarning := false
    referredBy := referredBy
    referrals := []
    joinBonus := 0
    totalEarnings := 0
    gameScore := 0
    tasksCompleted := []
    stakes := []
    lastActive := now }

/-! ## Account methods (`UserSchema.methods`) -/

/-- `startEarning` (lines 107-114): the returned flag and the new document. -/
def startEarning (u : User) (now : Date) : Bool × User :=
  if !u.isEarning then
    (true, { u with isEarning := true, lastStartTime := some now })
  else
    (false, u)

/-- `stopEarning` (lines 116-122). -/
def stopEarning (u : User) : Bool × User :=
  if u.isEarning then
    (true, { u with isEarning := false })
  else
    (false, u)

/-- Rounding to the nearest integer, a tie to the even one. -/
def roundHalfEven (y : ℚ) : Int :=
  if y - ⌊y⌋ < 1 / 2 then ⌊y⌋
  else if 1 / 2 < y - ⌊y⌋ then ⌊y⌋ + 1
  else if ⌊y⌋ % 2 = 0 then ⌊y⌋
  else ⌊y⌋ + 1

/-- The result of an IEEE-754 binary64 operation whose exact value is `x`: `x`
rounded to 53 significant bits, to nearest, a tie to even. The exponent range is
not modelled (no overflow, no subnormal numbers): the values of
`calculateEarnings` on dates lie far inside it. -/
def roundDouble (x : ℚ) : ℚ :=
  if x = 0 then 0
  else
    (roundHalfEven (x / (2 : ℚ) ^ (Int.log 2 |x| - 52)) : ℚ) * (2 : ℚ) ^ (Int.log 2 |x| - 52)

/-- `hoursSinceStart` of `calculateEarnings` (line 130):
`(now - this.lastStartTime) / (1000 * 60 * 60)`, a subtraction and a division of
doubles. -/
def hoursSinceStart (lastStartTime now : Date) : ℚ :=
  roundDouble (roundDouble ((now - lastStartTime : Int) : ℚ) / (1000 * 60 * 60))

/-- `baseEarnings` of `calculateEarnings` (line 131): `10800 * hoursSinceStart`, a
multiplication of doubles. -/
def baseEarnings (lastStartTime now : Date) : ℚ :=
  roundDouble (10800 * hoursSinceStart lastStartTime now)

/-- `calculateEarnings` (lines 124-146). -/
def calculateEarnings (u : User) (now : Date) : Int :=
  match u.lastStartTime with
  | none => 0
  | some t =>
    if !u.isEarning then 0
    else
      if u.role = "MonthlyBooster" ∨ u.role = "LifeTimeBooster" then
        ⌊baseEarnings t now⌋
      else if u.role = "Monthly3xBooster" then
        ⌊roundDouble (baseEarnings t now * 3)⌋
      else if u.role = "LifeTime6xBooster" then
        ⌊roundDouble (baseEarnings t now * 6)⌋
      else if u.role = "User" then
        min ⌊baseEarnings t now⌋ 10800
      else 0

/-- `addEarnings` (lines 160-163). -/
def addEarnings (u : User) (amount : ℚ) : User :=
  { u with balance := u.balance + amount, totalEarnings := u.totalEarnings + amount }

/-- `claim` (lines 148-158): the returned amount and the new document. -/
def claim (u : User) (now : Date) : Int × User :=
  let earnings := calculateEarnings u now
  if earnings > 0 then
    let u1 := addEarnings u earnings
    let u2 := { u1 with lastClaimTime := some now }
    let u3 := (stopEarning u2).2
    let u4 := { u3 with lastStartTime := none }
    (earnings, u4)
  else
    (0, u)

/-- `new Date(ms)` on a number: the time value is truncated towards zero. -/
def dateOfNumber (ms : ℚ) : Date :=
  if 0 ≤ ms then ⌊ms⌋ else ⌈ms⌉

/-- `role.includes('LifeTime')`. -/
def includesLifeTime (role : String) : Bool :=
  decide ("LifeTime".toList <:+: role.toList)

/-- `setRole` (lines 165-172). `durationInDays` is `none` for a missing or
`null` argument; the number 0 is falsy like `null`. -/
def setRole (u : User) (role : String) (durationInDays : Option ℚ) (now : Date) : User :=
  let u1 := { u with role := role }
  match durationInDays with
  | some d =>
    if d ≠ 0 then
      { u1 with roleExpiryDate := some (dateOfNumber ((now : ℚ) + d * 24 * 60 * 60 * 1000)) }
    else if includesLifeTime role then { u1 with roleExpiryDate := none }
    else u1
  | none =>
    if includesLifeTime role then { u1 with roleExpiryDate := none }
    else u1

/-- `checkAndUpdateRole` (lines 174-180). -/
def checkAndUpdateRole (u : User) (now : Date) : User :=
  match u.roleExpiryDate with
  | some expiry =>
    if expiry ≤ now then
      (stopEarning { u with role := "User", roleExpiryDate := none }).2
    else u
  | none => u

/-- `canStartEarning` (lines 182-185). -/
def canStartEarning (u : User) : Bool :=
  !u.isEarning

/-! ## Staking (`UserSchema.methods.stake`, `claimStake`) -/

/-- The errors thrown by `stake` and `claimStake`. -/
inductive StakeError where
  | insufficientBalance
  | invalidPeriod
  | stakeNotFound
  | alreadyClaimed
  | notMatured
  deriving DecidableEq, Repr

/-- The message of each thrown `Error`, as written in the source. -/
def StakeError.message : StakeError → String
  | .insufficientBalance => "Insufficient balance for staking"
  | .invalidPeriod => "Invalid staking period"
  | .stakeNotFound => "Stake not found or does not belong to this user"
  | .alreadyClaimed => "Stake has already been claimed"
  | .notMatured => "Staking period has not ended yet"

/-- The `switch (period)` of `stake` (lines 192-205): `none` is the `default`
branch, which throws. -/
def stakeInterestRate (period : Int) : Option ℚ :=
  if period = 3 then some (3 / 100)
  else if period = 15 then some (10 / 100)
  else if period = 45 then some (35 / 100)
  else none

/-- Milliseconds of one day; `endDate.setDate(endDate.getDate() + period)` moves
the date by `period` days of this length (no daylight-saving shift in between). -/
def msPerDay : Int := 24 * 60 * 60 * 1000

/-- `stake` (lines 187-225), called on the document `u` whose `_id` is `self`,
against the Stake collection `stakes`. Returns the `_id` of the created stake,
the stake, the new user document and the new collection. -/
def stake (self : ObjectId) (u : User) (stakes : List Stake) (amount : ℚ) (period : Int)
    (now : Date) : Except StakeError (ObjectId × Stake × User × List Stake) :=
  if u.balance < amount then
    .error .insufficientBalance
  else
    match stakeInterestRate period with
    | none => .error .invalidPeriod
    | some interestRate =>
      let endDate := now + period * msPerDay
      let stake : Stake :=
        { user := self, amount := amount, period := period, interestRate := interestRate,
          endDate := endDate, claimed := false }
      let stakeId := stakes.length
      let stakes1 := stakes ++ [stake]
      let u1 := { u with stakes := u.stakes ++ [stakeId] }
      let u2 := { u1 with balance := u1.balance - amount }
      .ok (stakeId, stake, u2, stakes1)

/-- `claimStake` (lines 227-254). Returns `totalAmount` (a number), the new user
document and the new Stake collection. -/
def claimStake (u : User) (stakes : List Stake) (stakeId : ObjectId) (now : Date) :
    Except StakeError (ℚ × User × List Stake) :=
  match stakes[stakeId]? with
  | none => .error .stakeNotFound
  | some stake =>
    if !u.stakes.contains stakeId then
      .error .stakeNotFound
    else if stake.claimed then
      .error .alreadyClaimed
    else if now < stake.endDate then
      .error .notMatured
    else
      let interest := stake.amount * stake.interestRate
      let totalAmount := stake.amount + interest
      let u1 := { u with balance := u.balance + totalAmount }
      let stake1 := { stake with claimed := true }
      let u2 := { u1 with stakes := u1.stakes.filter (fun id => id != stakeId) }
      .ok (totalAmount, u2, stakes.set stakeId stake1)

/-! ## The database and the controllers -/

/-- The two collections. -/
structure Db where
  users : List User
  stakes : List Stake
  deriving DecidableEq, Repr

/-- `User.findOne(query)`: the `_id` of the first document that matches. -/
def findOne (p : User → Bool) (users : List User) : Option ObjectId :=
  if users.findIdx p < users.length then some (users.findIdx p) else none

/-- `User.findById(id)` for an optional reference: the `_id` and the document. -/
def findById (users : List User) (id : Option ObjectId) : Option (ObjectId × User) :=
  match id with
  | none => none
  | some i =>
    match users[i]? with
    | none => none
    | some doc => some (i, doc)

/-- A property read on a JavaScript number: `claimResult.principal`,
`claimResult.interest` and `claimResult.totalAmount` are `undefined` when
`claimResult` is a number. -/
def numberProperty (_value : ℚ) (_key : String) : Option ℚ :=
  none

/-- JSON body of a `stakeController.claimStake` response; `none` is a field that
is `undefined`. -/
structure ClaimStakeResponse where
  status : Nat
  message : String
  principal : Option ℚ
  interest : Option ℚ
  totalClaimed : Option ℚ
  deriving DecidableEq, Repr

/-- `exports.claimStake` of `stakeController.js` (lines 21-40). -/
def claimStakeController (db : Db) (userId : String) (stakeId : ObjectId) (now : Date) :
    ClaimStakeResponse × Db :=
  match findOne (fun u => u.telegramUserId == userId) db.users with
  | none =>
    ({ status := 404, message := "User not found", principal := none, interest := none,
       totalClaimed := none }, db)
  | some uid =>
    match db.users[uid]? with
    | none =>
      ({ status := 404, message := "User not found", principal := none, interest := none,
         totalClaimed := none }, db)
    | some user =>
      match claimStake user db.stakes stakeId now with
      | .ok (claimResult, user1, stakes1) =>
        ({ status := 200, message := "Stake claimed successfully",
           principal := numberProperty claimResult "principal",
           interest := numberProperty claimResult "interest",
           totalClaimed := numberProperty claimResult "totalAmount" },
         { users := db.users.set uid user1, stakes := stakes1 })
      | .error e =>
        ({ status := 400, message := e.message, principal := none, interest := none,
           totalClaimed := none }, db)

/-- `exports.createStake` of `stakeController.js` (lines 5-19): the status, the
created stake's `_id` and the new database. -/
def createStakeController (db : Db) (userId : String) (amount : ℚ) (period : Int)
    (now : Date) : Nat × Option ObjectId × Db :=
  match findOne (fun u => u.telegramUserId == userId) db.users with
  | none => (404, none, db)
  | some uid =>
    match db.users[uid]? with
    | none => (404, none, db)
    | some user =>
      match stake uid user db.stakes amount period now with
      | .ok (stakeId, _, user1, stakes1) =>
        (201, some stakeId, { users := db.users.set uid user1, stakes := stakes1 })
      | .error _ => (400, none, db)

/-- The mutation of `playGame` (lines 138-141): `balance += score`,
`totalEarnings += score`, `lastActive = new Date()`. -/
def applyScore (user : User) (score : ℚ) (now : Date) : User :=
  let user1 := { user with balance := user.balance + score }
  let user2 := { user1 with totalEarnings := user1.totalEarnings + score }
  { user2 with lastActive := now }

/-- `exports.playGame` of `userController.js` (lines 124-155): the status and the
new User collection. `score` is a JSON number, so `typeof score` is `'number'`;
an empty `username` is falsy. -/
def playGame (users : List User) (username : String) (score : ℚ) (now : Date) :
    Nat × List User :=
  if username = "" then (400, users)
  else
    match findById users (findOne (fun u => u.username == username) users) with
    | none => (404, users)
    | some (uid, user) => (200, users.set uid (applyScore user score now))

/-- The mutation of `completeTask` (lines 221-226) on the user document, for a
task `taskId` worth `points`: `none` when the task is already completed (the
400 response, nothing saved). -/
def completeTask (user : User) (taskId : ObjectId) (points : ℚ) : Option User :=
  if user.tasksCompleted.contains taskId then none
  else
    some (addEarnings { user with tasksCompleted := user.tasksCompleted ++ [taskId] } points)

/-- `referralBonuses` of `processReferral` (line 56). -/
def referralBonuses : List ℚ :=
  [20 / 100, 10 / 100, 5 / 100, 25 / 1000, 125 / 10000]

/-- The mutation of the direct referrer at the start of `processReferral`
(lines 52-53). -/
def creditReferrer (referrer : User) (newUser : ObjectId) : User :=
  addEarnings { referrer with referrals := referrer.referrals ++ [newUser] } 15000

/-- The `for` loop of `processReferral` (lines 59-67) over the remaining
bonuses, with `currentReferrer` the document in memory (and its `_id`) or
`null`; each `save()` writes the document back to the collection. -/
def cascade : List ℚ → Option (ObjectId × User) → List User → List User
  | [], _, users => users
  | _ :: _, none, users => users
  | bonus :: rest, some (id, currentReferrer), users =>
    let bonusAmount : Int := ⌊30000 * bonus⌋
    let doc := addEarnings currentReferrer bonusAmount
    let users1 := users.set id doc
    cascade rest (findById users1 doc.referredBy) users1

/-- `processReferral` (lines 51-68). -/
def processReferral (referrer : ObjectId × User) (newUser : ObjectId) (users : List User) :
    List User :=
  let doc := creditReferrer referrer.2 newUser
  let users1 := users.set referrer.1 doc
  cascade referralBonuses (some (referrer.1, doc)) users1

/-- The referral lookup of `registerUser` (lines 22-28): `none` is the 400
response `Invalid referral code`; an absent or empty code is falsy. -/
def lookupReferrer (users : List User) (referralCode : Option String) :
    Option (Option (ObjectId × User)) :=
  match referralCode with
  | none => some none
  | some code =>
    if code = "" then some none
    else
      match findById users (findOne (fun u => u.username == code) users) with
      | none => none
      | some referredBy => some (some referredBy)

/-- `exports.registerUser` of `userController.js` (lines 13-48): the status and
the new User collection. The first `user.save()` fails on the unique indexes of
`telegramUserId` and `username`. -/
def registerUser (users : List User) (telegramUserId username : String)
    (referralCode : Option String) (now : Date) : Nat × List User :=
  if telegramUserId = "" ∨ username = "" then (400, users)
  else
    match lookupReferrer users referralCode with
    | none => (400, users)
    | some referredBy =>
      let user := User.create telegramUserId username (referredBy.map (fun r => r.1)) now
      if users.any (fun u => u.telegramUserId == telegramUserId || u.username == username) then
        (400, users)
      else
        let userId := users.length
        let users1 := users ++ [user]
        let users2 :=
          match referredBy with
          | some referrer => processReferral referrer userId users1
          | none => users1
        (201, users2.set userId (addEarnings user 30000))

/-! ## Sequences of operations on one account -/

/-- The state-changing operations on one account. -/
inductive Op where
  | startEarning (now : Date)
  | stopEarning
  | claim (now : Date)
  | addEarnings (amount : ℚ)
  | setRole (role : String) (durationInDays : Option ℚ) (now : Date)
  | checkAndUpdateRole (now : Date)
  | stake (amount : ℚ) (period : Int) (now : Date)
  | claimStake (stakeId : ObjectId) (now : Date)
  | playGame (score : ℚ) (now : Date)
  | completeTask (taskId : ObjectId) (points : ℚ)
  | referral (newUser : ObjectId)
  deriving DecidableEq, Repr

/-- One account, the user document whose `_id` is `self`, with the Stake
collection. -/
structure Account where
  self : ObjectId
  user : User
  stakes : List Stake
  deriving DecidableEq, Repr

/-- One operation on the account; an operation that fails leaves the state as it
was. -/
def step (a : Account) : Op → Account
  | .startEarning now => { a with user := (startEarning a.user now).2 }
  | .stopEarning => { a with user := (stopEarning a.user).2 }
  | .claim now => { a with user := (claim a.user now).2 }
  | .addEarnings amount => { a with user := addEarnings a.user amount }
  | .setRole role durationInDays now => { a with user := setRole a.user role durationInDays now }
  | .checkAndUpdateRole now => { a with user := checkAndUpdateRole a.user now }
  | .stake amount period now =>
    match stake a.self a.user a.stakes amount period now with
    | .ok (_, _, user1, stakes1) => { a with user := user1, stakes := stakes1 }
    | .error _ => a
  | .claimStake stakeId now =>
    match claimStake a.user a.stakes stakeId now with
    | .ok (_, user1, stakes1) => { a with user := user1, stakes := stakes1 }
    | .error _ => a
  | .playGame score now => { a with user := applyScore a.user score now }
  | .completeTask taskId points =>
    match completeTask a.user taskId points with
    | some user1 => { a with user := user1 }
    | none => a
  | .referral newUser => { a with user := creditReferrer a.user newUser }

/-- A sequence of operations, left to right. -/
def run (a : Account) (ops : List Op) : Account :=
  ops.foldl step a

/-- A newly created account: the schema defaults, no stake in the collection
yet referenced. -/
def Account.new (self : ObjectId) (telegramUserId username : String)
    (referredBy : Option ObjectId) (now : Date) (stakes : List Stake) : Account :=
  { self := self, user := User.create telegramUserId username referredBy now, stakes := stakes }

/-! ## Specification-side definitions -/

/-- The exact accrual base of the specification: 10800 points per hour over the
elapsed milliseconds. -/
def specBase (lastStartTime now : Date) : ℚ :=
  10800 * ((now : ℚ) - (lastStartTime : ℚ)) / 3600000

/-- The session invariant kept by the code: an earning account has a start
time. -/
def SessionOk (u : User) : Prop :=
  u.isEarning = true → u.lastStartTime ≠ none

instance (u : User) : Decidable (SessionOk u) := by
  unfold SessionOk
  infer_instance

/-- The `_id` that `User.findById(doc.referredBy)` resolves to for the document
`i`, when the document and its referrer exist. -/
def referrerOf (users : List User) (i : ObjectId) : Option ObjectId :=
  match users[i]? with
  | none => none
  | some doc => (findById users doc.referredBy).map fun r => r.1

/-- The ancestor at `level` of the referral chain that starts at account `r`:
level 1 is `r` itself (the direct referrer of a new account), level 2 its
referrer, and so on. -/
def ancestor (users : List User) (r : ObjectId) : Nat → Option ObjectId
  | 0 => none
  | 1 => if r < users.length then some r else none
  | level + 2 =>
    match referrerOf users r with
    | none => none
    | some p => ancestor users p (level + 1)

/-- The cascade table of the specification. -/
def levelBonus : Nat → ℚ
  | 1 => 6000
  | 2 => 3000
  | 3 => 1500
  | 4 => 750
  | 5 => 375
  | _ => 0

/-- Every `referredBy` points to an account created earlier: it is set once, at
creation, to an account that exists then. -/
def Acyclic (users : List User) : Prop :=
  ∀ i ∈ List.range users.length,
    ∀ j ∈ (users[i]?).bind (fun doc => doc.referredBy), j < i

instance (users : List User) : Decidable (Acyclic users) := by
  unfold Acyclic
  infer_instance

/-- The sum credited to account `j` by the cascade loop that walks the parent
function `par` from `start` with the bonuses `bs`. -/
def chainCredit (par : ObjectId → Option ObjectId) :
    List ℚ → Option ObjectId → ObjectId → ℚ
  | [], _, _ => 0
  | _ :: _, none, _ => 0
  | bonus :: rest, some i, j =>
    (if i = j then ((⌊30000 * bonus⌋ : Int) : ℚ) else 0) + chainCredit par rest (par i) j

/-- The operation carries no negative amount, score or points. -/
def Op.NonNeg : Op → Prop
  | .addEarnings amount => 0 ≤ amount
  | .stake amount _ _ => 0 ≤ amount
  | .playGame score _ => 0 ≤ score
  | .completeTask _ points => 0 ≤ points
  | _ => True

/-- The balance is not negative and no stake of the collection has a negative
principal or rate. -/
def Solvent (a : Account) : Prop :=
  0 ≤ a.user.balance ∧ ∀ st ∈ a.stakes, 0 ≤ st.amount ∧ 0 ≤ st.interestRate

/-- A chain three levels deep: carol (0) referred bob (1), who referred alice
(2). -/
def sampleChain : List User :=
  [User.create "1" "carol" none 0, User.create "2" "bob" (some 0) 0,
   User.create "3" "alice" (some 1) 0]

/-! ## Leaderboard (`src/controller/leaderboardController.js`) -/

/-- One entry of a leaderboard bucket (lines 34-39, 42-47, 50-55). -/
structure LeaderboardEntry where
  username : String
  role : String
  referralCount : Nat
  rank : Nat
  deriving DecidableEq, Repr

/-- JSON body of `getLeaderboard` (lines 60-64). -/
structure Leaderboard where
  promoters : List LeaderboardEntry
  influencers : List LeaderboardEntry
  ambassadors : List LeaderboardEntry
  deriving DecidableEq, Repr

/-- The comparator `(a, b) => b.referrals.length - a.referrals.length` of both
sorts is not positive: `a` may stand before `b`. Every reference of `referrals`
resolves under `populate`, since accounts are never deleted. -/
def referralOrder (a b : User) : Prop :=
  b.referrals.length ≤ a.referrals.length

instance : DecidableRel referralOrder := fun a b =>
  inferInstanceAs (Decidable (b.referrals.length ≤ a.referrals.length))

instance : IsTotal User referralOrder :=
  ⟨fun a b => Nat.le_total b.referrals.length a.referrals.length⟩

instance : IsTrans User referralOrder :=
  ⟨fun _ _ _ hab hbc => Nat.le_trans hbc hab⟩

/-- `users.sort(comparator)` (lines 18 and 87). `Array.prototype.sort` is a
stable sort, and a stable sort by a consistent comparator has one result; it is
computed here by insertion. -/
def sortByReferrals (users : List User) : List User :=
  users.insertionSort referralOrder

/-- `User.find(query)` of `getLeaderboard` (lines 7-15): an absent or empty
`role` is falsy and leaves the query empty. -/
def findByRole (users : List User) (role : Option String) : List User :=
  match role with
  | none => users
  | some r => if r = "" then users else users.filter fun u => u.role == r

/-- The callback of `users.forEach` (lines 26-57) on the buckets so far. -/
def classifyUser (board : Leaderboard) (user : User) (index : Nat) : Leaderboard :=
  let rank := index + 1
  let referralCount := user.referrals.length
  if rank ≤ 5000 then
    { board with
      promoters := board.promoters ++ [⟨user.username, "Promoter", referralCount, rank⟩] }
  else if rank ≤ 20000 then
    { board with
      influencers := board.influencers ++ [⟨user.username, "Influencer", referralCount, rank⟩] }
  else if rank ≤ 50000 then
    { board with
      ambassadors := board.ambassadors ++ [⟨user.username, "Ambassador", referralCount, rank⟩] }
  else board

/-- `users.forEach(callback)` on the users that remain, the next of them at
`index`. -/
def classifyFrom : Leaderboard → Nat → List User → Leaderboard
  | board, _, [] => board
  | board, index, user :: rest => classifyFrom (classifyUser board user index) (index + 1) rest

/-- `exports.getLeaderboard` (lines 5-68) on the User collection. -/
def getLeaderboard (users : List User) (role : Option String) : Leaderboard :=
  classifyFrom ⟨[], [], []⟩ 0 (sortByReferrals (findByRole users role))

/-- JSON body of `getUserRank` (lines 110-115). -/
structure UserRank where
  username : String
  referralCount : Nat
  rank : Nat
  classification : String
  deriving DecidableEq, Repr

/-- The loop of `getUserRank` (lines 89-98) from index `i`: the rank of the first
user with the username, 0 when there is none. -/
def findRank : List User → Nat → String → Nat
  | [], _, _ => 0
  | user :: rest, i, username =>
    if user.username = username then i + 1 else findRank rest (i + 1) username

/-- The classification of `getUserRank` (lines 90, 100-107). -/
def classifyRank (rank : Nat) : String :=
  if rank ≤ 5000 then "Promoter"
  else if rank ≤ 20000 then "Influencer"
  else if rank ≤ 50000 then "Ambassador"
  else "User"

/-- `exports.getUserRank` (lines 72-119): `none` is the 404 response. -/
def getUserRank (users : List User) (username : String) : Option UserRank :=
  match findById users (findOne (fun u => u.username == username) users) with
  | none => none
  | some (_, user) =>
    let rank := findRank (sortByReferrals users) 0 username
    some
      { username := user.username
        referralCount := user.referrals.length
        rank := rank
        classification := classifyRank rank }

/-! ## Claiming through the controller -/

/-- JSON body and status of `claimPoints`; `none` is a field the response does
not carry. -/
structure ClaimPointsResponse where
  status : Nat
  message : String
  claimedAmount : Option Int
  newBalance : Option ℚ
  isEarning : Option Bool
  deriving DecidableEq, Repr

/-- `exports.claimPoints` of `userController.js` (lines 291-319): the response and
the User collection; `user.save()` is called only when the claimed amount is
positive. -/
def claimPoints (users : List User) (telegramUserId : String) (now : Date) :
    ClaimPointsResponse × List User :=
  match findById users (findOne (fun u => u.telegramUserId == telegramUserId) users) with
  | none => (⟨404, "User not found", none, none, none⟩, users)
  | some (uid, user) =>
    let user1 := checkAndUpdateRole user now
    let claimedAmount := (claim user1 now).1
    let user2 := (claim user1 now).2
    if claimedAmount > 0 then
      let user3 := { user2 with lastActive := now }
      (⟨200, "Points claimed successfully", some claimedAmount, some user3.balance,
        some user3.isEarning⟩, users.set uid user3)
    else
      (⟨400, "No points available to claim", none, none, none⟩, users)

/-- `exports.setUserRole` of `userController.js` (lines 322-344): the status, the
message and the User collection. `role` is `none` for a body without the field;
the empty string is falsy like a missing field. -/
def setUserRole (users : List User) (telegramUserId : String) (role : Option String)
    (durationInDays : Option ℚ) (now : Date) : (Nat × String) × List User :=
  match role with
  | none => ((400, "Role is required"), users)
  | some r =>
    if r = "" then ((400, "Role is required"), users)
    else
      match findById users (findOne (fun u => u.telegramUserId == telegramUserId) users) with
      | none => ((404, "User not found"), users)
      | some (uid, user) =>
        ((200, "User role updated successfully"),
          users.set uid (setRole user r durationInDays now))

/-- A stored `MonthlyBooster` given 30 days at time 0, in a session started one
hour before the expiry date. -/
def expiredBooster : User :=
  { User.create "1" "alice" none 0 with
    role := "MonthlyBooster", roleExpiryDate := some 2592000000, isEarning := true,
    lastStartTime := some 2588400000 }

/-- The same account with the role renewed for 30 days at clock value
2595600000. -/
def renewedBooster : User :=
  { expiredBooster with roleExpiryDate := some 5187600000 }

/-! ## Role expiry: specification-side definitions -/

/-- The time-limited roles of the specification. -/
def TimeLimited (role : String) : Prop :=
  role = "MonthlyBooster" ∨ role = "Monthly3xBooster"

instance (role : String) : Decidable (TimeLimited role) := by
  unfold TimeLimited
  infer_instance

/-- The JavaScript truthiness of `durationInDays`. -/
def durationGiven (durationInDays : Option ℚ) : Bool :=
  match durationInDays with
  | some d => d != 0
  | none => false

/-- A `setRole` call that keeps expiry dates on time-limited roles only: a
duration comes with a time-limited role; without a duration the role is a
`LifeTime` role or a time-limited one, or no expiry date is set at the time of
the call. -/
def SetRoleOk (u : User) (role : String) (durationInDays : Option ℚ) : Prop :=
  if durationGiven durationInDays then TimeLimited role
  else includesLifeTime role = true ∨ TimeLimited role ∨ u.roleExpiryDate = none

instance (u : User) (role : String) (d : Option ℚ) : Decidable (SetRoleOk u role d) := by
  unfold SetRoleOk
  infer_instance

/-- Every `setRole` call of the sequence, run from `a`, is `SetRoleOk` in the
state in which it is made. -/
def RoleCallsOk : Account → List Op → Prop
  | _, [] => True
  | a, .setRole role d now :: ops =>
    SetRoleOk a.user role d ∧ RoleCallsOk (step a (.setRole role d now)) ops
  | a, op :: ops => RoleCallsOk (step a op) ops

/-- The bucket entry of the user at 0-based position `p.1` of the sorted list:
its rank is the 1-based position. -/
def entryOf (role : String) (p : Nat × User) : LeaderboardEntry :=
  ⟨p.2.username, role, p.2.referrals.length, p.1 + 1⟩

/-- The leaderboard in the specification's words: the accounts in sorted order
with their positions, each bucket the accounts whose rank lies in its range. -/
def specLeaderboard (sorted : List User) (index : Nat) : Leaderboard :=
  { promoters :=
      ((sorted.enumFrom index).filter fun p => decide (p.1 + 1 ≤ 5000)).map
        (entryOf "Promoter")
    influencers :=
      ((sorted.enumFrom index).filter fun p =>
        decide (5000 < p.1 + 1 ∧ p.1 + 1 ≤ 20000)).map (entryOf "Influencer")
    ambassadors :=
      ((sorted.enumFrom index).filter fun p =>
        decide (20000 < p.1 + 1 ∧ p.1 + 1 ≤ 50000)).map (entryOf "Ambassador") }

/-- Three accounts with 10, 10 and 5 referrals, in this order. -/
def sampleBoard : List User :=
  [{ User.create "1" "ann" none 0 with referrals := List.range 10 },
   { User.create "2" "ben" none 0 with referrals := List.range 10 },
   { User.create "3" "cat" none 0 with referrals := List.range 5 }]

/-! # Theorems -/

/-! ## Accrual -/

theorem roundHalfEven_intCast (k : Int) : roundHalfEven (k : ℚ) = k := by
  simp [roundHalfEven]

theorem le_roundHalfEven (y : ℚ) (n : Int) (h : (n : ℚ) ≤ y) : n ≤ roundHalfEven y := by
  have hf : n ≤ ⌊y⌋ := Int.le_floor.mpr h
  unfold roundHalfEven
  split_ifs <;> omega

theorem roundHalfEven_eq (y : ℚ) (k : Int) (h1 : (k : ℚ) - 1 / 2 < y) (h2 : y < k + 1 / 2) :
    roundHalfEven y = k := by
  rcases le_or_lt (k : ℚ) y with hk | hk
  · have hf : ⌊y⌋ = k := Int.floor_eq_iff.mpr ⟨hk, by linarith⟩
    unfold roundHalfEven
    rw [hf, if_pos (by linarith)]
  · have hf : ⌊y⌋ = k - 1 := Int.floor_eq_iff.mpr ⟨by push_cast; linarith, by push_cast; linarith⟩
    unfold roundHalfEven
    rw [hf, if_neg (by push_cast; linarith), if_pos (by push_cast; linarith)]
    omega

/-- The binary exponent of a positive number is the one whose powers of two
enclose it. -/
theorem log2_eq (x : ℚ) (e : Int) (h1 : (2 : ℚ) ^ e ≤ x) (h2 : x < (2 : ℚ) ^ (e + 1)) :
    Int.log 2 x = e := by
  have hx : 0 < x := lt_of_lt_of_le (zpow_pos (by norm_num) e) h1
  have ha : e ≤ Int.log 2 x := (Int.zpow_le_iff_le_log (by norm_num) hx).mp (by exact_mod_cast h1)
  have hb : Int.log 2 x < e + 1 := (Int.lt_zpow_iff_log_lt (by norm_num) hx).mp (by exact_mod_cast h2)
  omega

/-- The double nearest to `x`, given its exponent `e` and its 53-bit significand
`k`. -/
theorem roundDouble_eq (x : ℚ) (e k : Int) (h1 : (2 : ℚ) ^ e ≤ |x|) (h2 : |x| < (2 : ℚ) ^ (e + 1))
    (hk1 : ((k : ℚ) - 1 / 2) * (2 : ℚ) ^ (e - 52) < x)
    (hk2 : x < ((k : ℚ) + 1 / 2) * (2 : ℚ) ^ (e - 52)) :
    roundDouble x = k * (2 : ℚ) ^ (e - 52) := by
  have hpos : 0 < |x| := lt_of_lt_of_le (zpow_pos (by norm_num) e) h1
  have hx : x ≠ 0 := abs_pos.mp hpos
  have hu : (0 : ℚ) < (2 : ℚ) ^ (e - 52) := zpow_pos (by norm_num) _
  unfold roundDouble
  rw [if_neg hx, log2_eq |x| e h1 h2]
  rw [roundHalfEven_eq _ k ((lt_div_iff₀ hu).mpr hk1) ((div_lt_iff₀ hu).mpr hk2)]

/-- An integer below `2 ^ 53` is a double. -/
theorem roundDouble_intCast (n : Int) (h : |n| < 2 ^ 53) : roundDouble (n : ℚ) = n := by
  by_cases hn : n = 0
  · simp [hn, roundDouble]
  have hq : (n : ℚ) ≠ 0 := by exact_mod_cast hn
  have habs : (1 : ℚ) ≤ |(n : ℚ)| := by
    have : (1 : Int) ≤ |n| := Int.one_le_abs hn
    exact_mod_cast this
  have hpos : (0 : ℚ) < |(n : ℚ)| := lt_of_lt_of_le one_pos habs
  have he0 : 0 ≤ Int.log 2 |(n : ℚ)| :=
    (Int.zpow_le_iff_le_log (by norm_num) hpos).mp (by simpa using habs)
  have he1 : Int.log 2 |(n : ℚ)| < 53 :=
    (Int.lt_zpow_iff_log_lt (by norm_num) hpos).mp (by
      have h' : |(n : ℚ)| < ((2 ^ 53 : Int) : ℚ) := by exact_mod_cast h
      have h2 : ((2 ^ 53 : Int) : ℚ) = ((2 : Nat) : ℚ) ^ (53 : Int) := by norm_num
      rw [← h2]
      exact h')
  obtain ⟨d, hd⟩ : ∃ d : Nat, Int.log 2 |(n : ℚ)| - 52 = -(d : Int) :=
    ⟨(52 - Int.log 2 |(n : ℚ)|).toNat, by omega⟩
  unfold roundDouble
  rw [if_neg hq, hd, zpow_neg, zpow_natCast, div_inv_eq_mul]
  have hcast : (n : ℚ) * (2 : ℚ) ^ d = ((n * 2 ^ d : Int) : ℚ) := by push_cast; ring
  rw [hcast, roundHalfEven_intCast]
  push_cast
  field_simp

/-- Rounding never falls below a double that the exact value reaches. -/
theorem le_roundDouble (x : ℚ) (m j : Int) (hm1 : 2 ^ 52 ≤ m) (hm2 : m < 2 ^ 53)
    (hx : (m : ℚ) * (2 : ℚ) ^ j ≤ x) : (m : ℚ) * (2 : ℚ) ^ j ≤ roundDouble x := by
  have hu : (0 : ℚ) < (2 : ℚ) ^ j := zpow_pos (by norm_num) _
  have hmq1 : (2 : ℚ) ^ 52 ≤ (m : ℚ) := by exact_mod_cast hm1
  have hmq2 : (m : ℚ) < (2 : ℚ) ^ 53 := by exact_mod_cast hm2
  have hc : (0 : ℚ) < (m : ℚ) * (2 : ℚ) ^ j := mul_pos (lt_of_lt_of_le (by norm_num) hmq1) hu
  have hxpos : 0 < x := lt_of_lt_of_le hc hx
  have hxne : x ≠ 0 := ne_of_gt hxpos
  have habs : |x| = x := abs_of_pos hxpos
  have hlow : (2 : ℚ) ^ (j + 52) ≤ x := by
    have : (2 : ℚ) ^ (j + 52) = (2 : ℚ) ^ 52 * (2 : ℚ) ^ j := by
      rw [zpow_add₀ (by norm_num), mul_comm]; norm_cast
    rw [this]
    exact le_trans (mul_le_mul_of_nonneg_right hmq1 (le_of_lt hu)) hx
  have he : j + 52 ≤ Int.log 2 x :=
    (Int.zpow_le_iff_le_log (by norm_num) hxpos).mp (by exact_mod_cast hlow)
  have hpow : (2 : ℚ) ^ Int.log 2 x ≤ x := by
    have := Int.zpow_log_le_self (b := 2) (by norm_num) hxpos
    exact_mod_cast this
  unfold roundDouble
  rw [if_neg hxne, habs]
  have hu2 : (0 : ℚ) < (2 : ℚ) ^ (Int.log 2 x - 52) := zpow_pos (by norm_num) _
  have hK : (((2 : Int) ^ 52 : Int) : ℚ) = (2 : ℚ) ^ (52 : Int) := by norm_num
  rcases eq_or_lt_of_le he with heq | hlt
  · have hj : Int.log 2 x - 52 = j := by omega
    rw [hj]
    have hy : (m : ℚ) ≤ x / (2 : ℚ) ^ j := (le_div_iff₀ hu).mpr hx
    have := le_roundHalfEven _ m hy
    have hq : (m : ℚ) ≤ (roundHalfEven (x / (2 : ℚ) ^ j) : ℚ) := by exact_mod_cast this
    exact mul_le_mul_of_nonneg_right hq (le_of_lt hu)
  · have hy : (((2 : Int) ^ 52 : Int) : ℚ) ≤ x / (2 : ℚ) ^ (Int.log 2 x - 52) := by
      rw [le_div_iff₀ hu2]
      have : (((2 : Int) ^ 52 : Int) : ℚ) * (2 : ℚ) ^ (Int.log 2 x - 52) = (2 : ℚ) ^ Int.log 2 x := by
        rw [hK, ← zpow_add₀ (by norm_num)]
        congr 1
        omega
      rw [this]
      exact hpow
    have := le_roundHalfEven _ _ hy
    have hq : (((2 : Int) ^ 52 : Int) : ℚ) ≤
        (roundHalfEven (x / (2 : ℚ) ^ (Int.log 2 x - 52)) : ℚ) := by exact_mod_cast this
    have h1 : (2 : ℚ) ^ Int.log 2 x ≤
        (roundHalfEven (x / (2 : ℚ) ^ (Int.log 2 x - 52)) : ℚ) * (2 : ℚ) ^ (Int.log 2 x - 52) := by
      have h2 := mul_le_mul_of_nonneg_right hq (le_of_lt hu2)
      have : (((2 : Int) ^ 52 : Int) : ℚ) * (2 : ℚ) ^ (Int.log 2 x - 52) = (2 : ℚ) ^ Int.log 2 x := by
        rw [hK, ← zpow_add₀ (by norm_num)]
        congr 1
        omega
      rw [this] at h2
      exact h2
    have h3 : (m : ℚ) * (2 : ℚ) ^ j ≤ (2 : ℚ) ^ (j + 53) := by
      have : (2 : ℚ) ^ (j + 53) = (2 : ℚ) ^ 53 * (2 : ℚ) ^ j := by
        rw [zpow_add₀ (by norm_num), mul_comm]; norm_cast
      rw [this]
      exact mul_le_mul_of_nonneg_right (le_of_lt hmq2) (le_of_lt hu)
    have h4 : (2 : ℚ) ^ (j + 53) ≤ (2 : ℚ) ^ Int.log 2 x :=
      zpow_le_zpow_right₀ (by norm_num) (by omega)
    linarith

theorem roundDouble_of_int (x : ℚ) (n : Int) (hx : x = n) (h : |n| < 2 ^ 53) :
    roundDouble x = x := by
  rw [hx]
  exact roundDouble_intCast n h

/-- On a whole number of hours (of moderate size) nothing is rounded. -/
theorem baseEarnings_whole_hours (t now : Date) (k : Int) (h : now - t = k * 3600000)
    (hk : |k| < 1000000000) : baseEarnings t now = 10800 * k := by
  have habs : -1000000000 < k ∧ k < 1000000000 := abs_lt.mp hk
  have h1 : roundDouble ((now - t : Int) : ℚ) = ((now - t : Int) : ℚ) :=
    roundDouble_intCast _ (by rw [h]; rw [abs_lt]; constructor <;> norm_num <;> omega)
  have h2 : ((now - t : Int) : ℚ) / (1000 * 60 * 60) = (k : ℚ) := by
    rw [h]
    push_cast
    rw [show (1000 * 60 * 60 : ℚ) = 3600000 by norm_num, mul_div_assoc,
      div_self (by norm_num), mul_one]
  have h3 : roundDouble (k : ℚ) = k :=
    roundDouble_intCast k (by rw [abs_lt]; constructor <;> norm_num <;> omega)
  have h4 : roundDouble (((10800 * k : Int) : ℚ)) = ((10800 * k : Int) : ℚ) :=
    roundDouble_intCast _ (by rw [abs_lt]; constructor <;> norm_num <;> omega)
  unfold baseEarnings hoursSinceStart
  rw [h1, h2, h3]
  have h5 : (10800 : ℚ) * (k : ℚ) = ((10800 * k : Int) : ℚ) := by push_cast; ring
  rw [h5, h4]

/-- Past one hour the rounded base is at least 10800. -/
theorem baseEarnings_ge (t now : Date) (h : t + 3600000 < now) :
    (10800 : ℚ) ≤ baseEarnings t now := by
  have hd : ((3600000 * 2 ^ 31 : Int) : ℚ) * (2 : ℚ) ^ (-31 : Int) ≤
      ((now - t : Int) : ℚ) := by
    have h1 : ((3600000 * 2 ^ 31 : Int) : ℚ) * (2 : ℚ) ^ (-31 : Int) = 3600000 := by norm_num
    rw [h1]
    have h2 : (3600000 : Int) ≤ now - t := by linarith
    exact_mod_cast h2
  have hr1 := le_roundDouble _ (3600000 * 2 ^ 31) (-31) (by norm_num) (by norm_num) hd
  have hr1' : (3600000 : ℚ) ≤ roundDouble ((now - t : Int) : ℚ) := by
    have h1 : ((3600000 * 2 ^ 31 : Int) : ℚ) * (2 : ℚ) ^ (-31 : Int) = 3600000 := by norm_num
    rw [h1] at hr1
    exact hr1
  have hq : ((2 ^ 52 : Int) : ℚ) * (2 : ℚ) ^ (-52 : Int) ≤
      roundDouble ((now - t : Int) : ℚ) / (1000 * 60 * 60) := by
    have h1 : ((2 ^ 52 : Int) : ℚ) * (2 : ℚ) ^ (-52 : Int) = 1 := by norm_num
    rw [h1, le_div_iff₀ (by norm_num)]
    linarith
  have hr2 := le_roundDouble _ (2 ^ 52) (-52) (by norm_num) (by norm_num) hq
  have hr2' : (1 : ℚ) ≤ hoursSinceStart t now := by
    have h1 : ((2 ^ 52 : Int) : ℚ) * (2 : ℚ) ^ (-52 : Int) = 1 := by norm_num
    rw [h1] at hr2
    exact hr2
  have hp : ((10800 * 2 ^ 39 : Int) : ℚ) * (2 : ℚ) ^ (-39 : Int) ≤
      10800 * hoursSinceStart t now := by
    have h1 : ((10800 * 2 ^ 39 : Int) : ℚ) * (2 : ℚ) ^ (-39 : Int) = 10800 := by norm_num
    rw [h1]
    linarith
  have hr3 := le_roundDouble _ (10800 * 2 ^ 39) (-39) (by norm_num) (by norm_num) hp
  have h1 : ((10800 * 2 ^ 39 : Int) : ℚ) * (2 : ℚ) ^ (-39 : Int) = 10800 := by norm_num
  rw [h1] at hr3
  exact hr3

/-- The doubles of 65 seconds: the quotient is below 65/3600 and the product is
below 195. -/
theorem baseEarnings_65s : baseEarnings 0 65000 = 6860952557322239 / 2 ^ 45 := by
  have h1 : roundDouble (((65000 - 0 : Int) : ℚ)) = 65000 := by
    have := roundDouble_intCast 65000 (by norm_num)
    simpa using this
  have h2 : roundDouble (65000 / (1000 * 60 * 60)) =
      5204159569405906 * (2 : ℚ) ^ (-6 - 52 : Int) :=
    roundDouble_eq _ (-6) 5204159569405906 (by norm_num [abs_of_pos])
      (by norm_num [abs_of_pos]) (by norm_num) (by norm_num)
  have h3 : roundDouble (10800 * (5204159569405906 * (2 : ℚ) ^ (-6 - 52 : Int))) =
      6860952557322239 * (2 : ℚ) ^ (7 - 52 : Int) :=
    roundDouble_eq _ 7 6860952557322239 (by norm_num [abs_of_pos])
      (by norm_num [abs_of_pos]) (by norm_num) (by norm_num)
  unfold baseEarnings hoursSinceStart
  rw [h1, h2, h3]
  norm_num

/-- The doubles of one second before the start: the product is exactly -3. -/
theorem baseEarnings_minus_1s : baseEarnings 1000 0 = -3 := by
  have h1 : roundDouble (((0 - 1000 : Int) : ℚ)) = -1000 := by
    have := roundDouble_intCast (-1000) (by norm_num)
    simpa using this
  have h2 : roundDouble (-1000 / (1000 * 60 * 60)) =
      (-5124095576030431 : Int) * (2 : ℚ) ^ (-12 - 52 : Int) :=
    roundDouble_eq _ (-12) (-5124095576030431) (by norm_num [abs_of_neg])
      (by norm_num [abs_of_neg]) (by norm_num) (by norm_num)
  have h3 : roundDouble (10800 * ((-5124095576030431 : Int) * (2 : ℚ) ^ (-12 - 52 : Int))) =
      (-6755399441055744 : Int) * (2 : ℚ) ^ (1 - 52 : Int) :=
    roundDouble_eq _ 1 (-6755399441055744) (by norm_num [abs_of_neg])
      (by norm_num [abs_of_neg]) (by norm_num) (by norm_num)
  unfold baseEarnings hoursSinceStart
  rw [h1, h2, h3]
  norm_num

theorem calculateEarnings_not_earning (u : User) (now : Date) (h : u.isEarning = false) :
    calculateEarnings u now = 0 := by
  unfold calculateEarnings
  cases u.lastStartTime <;> simp [h]

theorem calculateEarnings_no_start (u : User) (now : Date) (h : u.lastStartTime = none) :
    calculateEarnings u now = 0 := by
  simp [calculateEarnings, h]

theorem calculateEarnings_user (u : User) (now t : Date) (he : u.isEarning = true)
    (ht : u.lastStartTime = some t) (hr : u.role = "User") :
    calculateEarnings u now = min ⌊baseEarnings t now⌋ 10800 := by
  simp [calculateEarnings, ht, he, hr]

theorem calculateEarnings_booster (u : User) (now t : Date) (he : u.isEarning = true)
    (ht : u.lastStartTime = some t)
    (hr : u.role = "MonthlyBooster" ∨ u.role = "LifeTimeBooster") :
    calculateEarnings u now = ⌊baseEarnings t now⌋ := by
  simp [calculateEarnings, ht, he, hr]

theorem calculateEarnings_3x (u : User) (now t : Date) (he : u.isEarning = true)
    (ht : u.lastStartTime = some t) (hr : u.role = "Monthly3xBooster") :
    calculateEarnings u now = ⌊roundDouble (baseEarnings t now * 3)⌋ := by
  simp [calculateEarnings, ht, he, hr]

theorem calculateEarnings_6x (u : User) (now t : Date) (he : u.isEarning = true)
    (ht : u.lastStartTime = some t) (hr : u.role = "LifeTime6xBooster") :
    calculateEarnings u now = ⌊roundDouble (baseEarnings t now * 6)⌋ := by
  simp [calculateEarnings, ht, he, hr]

theorem isEarning_of_calculateEarnings_ne_zero (u : User) (now : Date)
    (h : calculateEarnings u now ≠ 0) : u.isEarning = true := by
  by_contra hne
  exact h (calculateEarnings_not_earning u now (by simpa using hne))

theorem claim_pos (u : User) (now : Date) (h : 0 < calculateEarnings u now) :
    claim u now =
      (calculateEarnings u now,
        { u with
          balance := u.balance + calculateEarnings u now
          totalEarnings := u.totalEarnings + calculateEarnings u now
          lastClaimTime := some now
          isEarning := false
          lastStartTime := none }) := by
  have he : u.isEarning = true := isEarning_of_calculateEarnings_ne_zero u now (ne_of_gt h)
  simp [claim, h, stopEarning, addEarnings, he]

theorem claim_nonpos (u : User) (now : Date) (h : calculateEarnings u now ≤ 0) :
    claim u now = (0, u) := by
  simp [claim, not_lt.mpr h]

/-- C1. A `MonthlyBooster` 65 seconds into its session gets 194 where the floor
of the exact base `10800 * 65000 / 3600000` is 195: the quotient and the product
are doubles, the product is just below 195 and `Math.floor` cuts it to 194. In
the same way a `Monthly3xBooster` gets 584 where the exact floor is 585. On
exactly one hour nothing is rounded and a `LifeTime6xBooster` gets 64800. -/
theorem calculateEarnings_below_exact :
    calculateEarnings
      { User.create "1" "alice" none 0 with
        role := "MonthlyBooster", isEarning := true, lastStartTime := some 0 } 65000 = 194 ∧
    ⌊specBase 0 65000⌋ = 195 ∧
    calculateEarnings
      { User.create "1" "alice" none 0 with
        role := "Monthly3xBooster", isEarning := true, lastStartTime := some 0 } 65000 = 584 ∧
    ⌊3 * specBase 0 65000⌋ = 585 ∧
    calculateEarnings
      { User.create "1" "alice" none 0 with
        role := "LifeTime6xBooster", isEarning := true, lastStartTime := some 0 } 3600000 =
      64800 := by
  refine ⟨?_, ?_, ?_, ?_, ?_⟩
  · rw [calculateEarnings_booster _ 65000 0 rfl rfl (Or.inl rfl), baseEarnings_65s]
    rw [Int.floor_eq_iff]
    constructor <;> norm_num
  · rw [Int.floor_eq_iff]
    constructor <;> norm_num [specBase]
  · rw [calculateEarnings_3x _ 65000 0 rfl rfl rfl, baseEarnings_65s]
    have h : roundDouble (6860952557322239 / 2 ^ 45 * 3) =
        5145714417991679 * (2 : ℚ) ^ (9 - 52 : Int) :=
      roundDouble_eq _ 9 5145714417991679 (by norm_num [abs_of_pos])
        (by norm_num [abs_of_pos]) (by norm_num) (by norm_num)
    rw [h, Int.floor_eq_iff]
    constructor <;> norm_num
  · rw [Int.floor_eq_iff]
    constructor <;> norm_num [specBase]
  · rw [calculateEarnings_6x _ 3600000 0 rfl rfl rfl,
      baseEarnings_whole_hours 0 3600000 1 (by norm_num) (by norm_num)]
    have h : roundDouble (10800 * ((1 : Int) : ℚ) * 6) = 10800 * ((1 : Int) : ℚ) * 6 :=
      roundDouble_of_int _ 64800 (by norm_num) (by norm_num)
    rw [h]
    norm_num

/-! ## Claiming -/

/-- C7 (as stated, refuted). A `MonthlyBooster` whose session start (one hour)
lies after the clock value 0 has `calculateEarnings() = -10800`, and `claim()`
returns 0, not that value. -/
theorem claim_returns_zero_on_negative :
    calculateEarnings
      { User.create "1" "alice" none 0 with
        role := "MonthlyBooster", isEarning := true, lastStartTime := some 3600000 } 0 =
      -10800 ∧
    (claim
      { User.create "1" "alice" none 0 with
        role := "MonthlyBooster", isEarning := true, lastStartTime := some 3600000 } 0).1 =
      0 := by
  have h : calculateEarnings
      { User.create "1" "alice" none 0 with
        role := "MonthlyBooster", isEarning := true, lastStartTime := some 3600000 } 0 =
      -10800 := by
    rw [calculateEarnings_booster _ 0 3600000 rfl rfl (Or.inl rfl),
      baseEarnings_whole_hours 3600000 0 (-1) (by norm_num) (by norm_num)]
    norm_num
  refine ⟨h, ?_⟩
  simp only [claim, h]
  norm_num

/-- C7 (amended). With `e = calculateEarnings()`: when `e > 0`, `claim()`
returns `e`, adds `e` to balance and totalEarnings, sets `lastClaimTime = now`,
`isEarning = false`, `lastStartTime = null` and changes nothing else; when
`e <= 0` it returns 0 and leaves the account as it was. -/
theorem claim_spec (u : User) (now : Date) :
    (0 < calculateEarnings u now →
      claim u now =
        (calculateEarnings u now,
          { u with
            balance := u.balance + calculateEarnings u now
            totalEarnings := u.totalEarnings + calculateEarnings u now
            lastClaimTime := some now
            isEarning := false
            lastStartTime := none })) ∧
    (calculateEarnings u now ≤ 0 → claim u now = (0, u)) :=
  ⟨claim_pos u now, claim_nonpos u now⟩

/-- A `User` that started at 0 claims 10800 at two hours and is idle afterwards. -/
theorem claim_spec_witness :
    claim { User.create "1" "alice" none 0 with isEarning := true, lastStartTime := some 0 }
        7200000 =
      (10800,
        { User.create "1" "alice" none 0 with
          balance := 10800, totalEarnings := 10800, lastClaimTime := some 7200000 }) := by
  have h : calculateEarnings
      { User.create "1" "alice" none 0 with isEarning := true, lastStartTime := some 0 }
      7200000 = 10800 := by
    rw [calculateEarnings_user _ 7200000 0 rfl rfl rfl,
      baseEarnings_whole_hours 0 7200000 2 (by norm_num) (by norm_num)]
    norm_num
  have hc := (claim_spec
    { User.create "1" "alice" none 0 with isEarning := true, lastStartTime := some 0 }
    7200000).1 (by rw [h]; norm_num)
  rw [hc, h]
  norm_num [User.create]

/-- C8. A `User` account that is earning and whose session started more than one
hour before `now` claims exactly 10800 and its balance grows by exactly 10800;
and whatever the state and the clock, `claim()` of a `User` account never
returns more than 10800. -/
theorem claim_user_cap :
    (∀ (u : User) (now t : Date), u.role = "User" → u.isEarning = true →
      u.lastStartTime = some t → t + 3600000 < now →
      (claim u now).1 = 10800 ∧ (claim u now).2.balance = u.balance + 10800) ∧
    (∀ (u : User) (now : Date), u.role = "User" → (claim u now).1 ≤ 10800) := by
  refine ⟨?_, ?_⟩
  · intro u now t hr he ht hlt
    have hbase : (10800 : ℚ) ≤ baseEarnings t now := baseEarnings_ge t now hlt
    have hfl : (10800 : Int) ≤ ⌊baseEarnings t now⌋ :=
      Int.le_floor.mpr (by exact_mod_cast hbase)
    have hcalc : calculateEarnings u now = 10800 := by
      rw [calculateEarnings_user u now t he ht hr]
      exact min_eq_right hfl
    have hc := claim_pos u now (by rw [hcalc]; norm_num)
    rw [hc, hcalc]
    exact ⟨rfl, by norm_num⟩
  · intro u now hr
    rcases lt_or_le 0 (calculateEarnings u now) with h | h
    · rw [claim_pos u now h]
      have he : u.isEarning = true := isEarning_of_calculateEarnings_ne_zero u now (ne_of_gt h)
      cases ht : u.lastStartTime with
      | none =>
        rw [calculateEarnings_no_start u now ht] at h
        exact absurd h (lt_irrefl _)
      | some t =>
        show calculateEarnings u now ≤ 10800
        rw [calculateEarnings_user u now t he ht hr]
        exact min_le_right _ _
    · rw [claim_nonpos u now h]
      norm_num

/-- A `User` that started at 0 and claims at one hour and one millisecond. -/
theorem claim_user_cap_witness :
    (claim { User.create "1" "alice" none 0 with isEarning := true, lastStartTime := some 0 }
      3600001).1 = 10800 ∧
    (claim { User.create "1" "alice" none 0 with isEarning := true, lastStartTime := some 0 }
      3600001).2.balance = 0 + 10800 :=
  claim_user_cap.1
    { User.create "1" "alice" none 0 with isEarning := true, lastStartTime := some 0 }
    3600001 0 rfl rfl rfl (by norm_num)

/-! ## Sessions -/

theorem stake_ok_session (self : ObjectId) (u : User) (stakes : List Stake) (amount : ℚ)
    (period : Int) (now : Date) (r : ObjectId × Stake × User × List Stake)
    (h : stake self u stakes amount period now = .ok r) :
    r.2.2.1.isEarning = u.isEarning ∧ r.2.2.1.lastStartTime = u.lastStartTime := by
  unfold stake at h
  split at h
  · simp at h
  · cases hr : stakeInterestRate period with
    | none => simp [hr] at h
    | some rate =>
      simp only [hr, Except.ok.injEq] at h
      subst h
      exact ⟨rfl, rfl⟩

theorem claimStake_ok_session (u : User) (stakes : List Stake) (stakeId : ObjectId)
    (now : Date) (r : ℚ × User × List Stake) (h : claimStake u stakes stakeId now = .ok r) :
    r.2.1.isEarning = u.isEarning ∧ r.2.1.lastStartTime = u.lastStartTime := by
  unfold claimStake at h
  cases hs : stakes[stakeId]? with
  | none => simp [hs] at h
  | some st =>
    simp only [hs] at h
    split at h
    · simp at h
    · split at h
      · simp at h
      · split at h
        · simp at h
        · simp only [Except.ok.injEq] at h
          subst h
          exact ⟨rfl, rfl⟩

theorem completeTask_session (u u1 : User) (taskId : ObjectId) (points : ℚ)
    (h : completeTask u taskId points = some u1) :
    u1.isEarning = u.isEarning ∧ u1.lastStartTime = u.lastStartTime := by
  unfold completeTask at h
  split at h
  · simp at h
  · simp only [Option.some.injEq] at h
    subst h
    exact ⟨rfl, rfl⟩

theorem setRole_session (u : User) (role : String) (d : Option ℚ) (now : Date) :
    (setRole u role d now).isEarning = u.isEarning ∧
    (setRole u role d now).lastStartTime = u.lastStartTime := by
  unfold setRole
  cases d with
  | none => simp only; split <;> exact ⟨rfl, rfl⟩
  | some d => simp only; split <;> [exact ⟨rfl, rfl⟩; (split <;> exact ⟨rfl, rfl⟩)]

theorem checkAndUpdateRole_session (u : User) (now : Date) :
    ((checkAndUpdateRole u now).isEarning = false ∨
      (checkAndUpdateRole u now).isEarning = u.isEarning) ∧
    (checkAndUpdateRole u now).lastStartTime = u.lastStartTime := by
  unfold checkAndUpdateRole stopEarning
  cases u.roleExpiryDate with
  | none => exact ⟨Or.inr rfl, rfl⟩
  | some e =>
    simp only
    split
    · split
      · exact ⟨Or.inl rfl, rfl⟩
      · exact ⟨Or.inr rfl, rfl⟩
    · exact ⟨Or.inr rfl, rfl⟩

theorem claim_session (u : User) (now : Date) :
    (claim u now).2.isEarning = false ∨ (claim u now).2 = u := by
  rcases lt_or_le 0 (calculateEarnings u now) with h | h
  · left
    rw [claim_pos u now h]
  · right
    rw [claim_nonpos u now h]

/-- Every operation keeps the session invariant. -/
theorem step_sessionOk (a : Account) (op : Op) (h : SessionOk a.user) :
    SessionOk (step a op).user := by
  unfold SessionOk at h ⊢
  cases op with
  | startEarning now =>
    simp only [step, startEarning]
    split <;> simp_all
  | stopEarning =>
    simp only [step, stopEarning]
    split <;> simp_all
  | claim now =>
    simp only [step]
    rcases claim_session a.user now with hc | hc
    · intro he
      rw [hc] at he
      cases he
    · rw [hc]
      exact h
  | addEarnings amount => exact h
  | setRole role d now =>
    simp only [step]
    obtain ⟨h1, h2⟩ := setRole_session a.user role d now
    rw [h1, h2]
    exact h
  | checkAndUpdateRole now =>
    simp only [step]
    obtain ⟨h1, h2⟩ := checkAndUpdateRole_session a.user now
    rw [h2]
    rcases h1 with h1 | h1
    · intro he
      rw [h1] at he
      cases he
    · rw [h1]
      exact h
  | stake amount period now =>
    simp only [step]
    cases hst : stake a.self a.user a.stakes amount period now with
    | error e => exact h
    | ok r =>
      obtain ⟨h1, h2⟩ := stake_ok_session _ _ _ _ _ _ r hst
      obtain ⟨id, st, u1, s1⟩ := r
      simp only at h1 h2 ⊢
      rw [h1, h2]
      exact h
  | claimStake sid now =>
    simp only [step]
    cases hst : claimStake a.user a.stakes sid now with
    | error e => exact h
    | ok r =>
      obtain ⟨h1, h2⟩ := claimStake_ok_session _ _ _ _ r hst
      obtain ⟨amt, u1, s1⟩ := r
      simp only at h1 h2 ⊢
      rw [h1, h2]
      exact h
  | playGame score now => exact h
  | completeTask taskId points =>
    simp only [step]
    cases hc : completeTask a.user taskId points with
    | none => exact h
    | some u1 =>
      obtain ⟨h1, h2⟩ := completeTask_session _ _ _ _ hc
      simp only
      rw [h1, h2]
      exact h
  | referral newUser => exact h

theorem run_sessionOk (ops : List Op) (a : Account) (h : SessionOk a.user) :
    SessionOk (run a ops).user := by
  induction ops generalizing a with
  | nil => exact h
  | cons op ops ih => exact ih (step a op) (step_sessionOk a op h)

/-- C9 (as stated, refuted). From a new account, `startEarning` then
`stopEarning` leaves `lastStartTime` set while `isEarning` is false; so does a
role expiry seen by `checkAndUpdateRole` during a session. -/
theorem lastStartTime_stale_after_stop :
    (run (Account.new 0 "1" "alice" none 0 [])
      [.startEarning 0, .stopEarning]).user.lastStartTime = some 0 ∧
    (run (Account.new 0 "1" "alice" none 0 [])
      [.startEarning 0, .stopEarning]).user.isEarning = false ∧
    (run (Account.new 0 "1" "alice" none 0 [])
      [.setRole "MonthlyBooster" (some 30) 0, .startEarning 0,
       .checkAndUpdateRole 2592000000]).user.lastStartTime = some 0 ∧
    (run (Account.new 0 "1" "alice" none 0 [])
      [.setRole "MonthlyBooster" (some 30) 0, .startEarning 0,
       .checkAndUpdateRole 2592000000]).user.isEarning = false := by
  refine ⟨?_, ?_, ?_, ?_⟩
  · simp [run, step, Account.new, User.create, startEarning, stopEarning]
  · simp [run, step, Account.new, User.create, startEarning, stopEarning]
  · norm_num [run, step, Account.new, User.create, startEarning, stopEarning, setRole,
      checkAndUpdateRole, dateOfNumber]
  · norm_num [run, step, Account.new, User.create, startEarning, stopEarning, setRole,
      checkAndUpdateRole, dateOfNumber]

/-- C9 (amended). In every state reached from a newly created account by any
sequence of operations (among them `startEarning`, `stopEarning`, `claim`,
`setRole`, `checkAndUpdateRole`), an account with `isEarning` true has a
non-null `lastStartTime`. -/
theorem isEarning_implies_lastStartTime (self : ObjectId) (telegramUserId username : String)
    (referredBy : Option ObjectId) (created : Date) (stakes : List Stake) (ops : List Op)
    (h : (run (Account.new self telegramUserId username referredBy created stakes)
      ops).user.isEarning = true) :
    (run (Account.new self telegramUserId username referredBy created stakes)
      ops).user.lastStartTime ≠ none :=
  run_sessionOk ops (Account.new self telegramUserId username referredBy created stakes)
    (by intro he; cases he) h

/-- A new account that starts a session, is given a role and checks it. -/
theorem isEarning_implies_lastStartTime_witness :
    (run (Account.new 0 "1" "alice" none 0 [])
      [.startEarning 5, .setRole "LifeTimeBooster" none 6,
       .checkAndUpdateRole 7]).user.lastStartTime ≠ none :=
  isEarning_implies_lastStartTime 0 "1" "alice" none 0 []
    [.startEarning 5, .setRole "LifeTimeBooster" none 6, .checkAndUpdateRole 7]
    (by
      simp only [run, List.foldl, step, Account.new, User.create, startEarning, setRole,
        checkAndUpdateRole]
      simp)

/-- Without `startEarning`, an idle account stays idle. -/
theorem step_idle (a : Account) (op : Op) (h : a.user.isEarning = false)
    (hop : ∀ t, op ≠ .startEarning t) : (step a op).user.isEarning = false := by
  cases op with
  | startEarning now => exact absurd rfl (hop now)
  | stopEarning =>
    simp only [step, stopEarning]
    split <;> simp_all
  | claim now =>
    simp only [step]
    rcases claim_session a.user now with hc | hc
    · exact hc
    · rw [hc]; exact h
  | addEarnings amount => exact h
  | setRole role d now =>
    simp only [step]
    rw [(setRole_session a.user role d now).1]
    exact h
  | checkAndUpdateRole now =>
    simp only [step]
    rcases (checkAndUpdateRole_session a.user now).1 with h1 | h1
    · exact h1
    · rw [h1]; exact h
  | stake amount period now =>
    simp only [step]
    cases hst : stake a.self a.user a.stakes amount period now with
    | error e => exact h
    | ok r =>
      obtain ⟨h1, -⟩ := stake_ok_session _ _ _ _ _ _ r hst
      obtain ⟨id, st, u1, s1⟩ := r
      simp only at h1 ⊢
      rw [h1]; exact h
  | claimStake sid now =>
    simp only [step]
    cases hst : claimStake a.user a.stakes sid now with
    | error e => exact h
    | ok r =>
      obtain ⟨h1, -⟩ := claimStake_ok_session _ _ _ _ r hst
      obtain ⟨amt, u1, s1⟩ := r
      simp only at h1 ⊢
      rw [h1]; exact h
  | playGame score now => exact h
  | completeTask taskId points =>
    simp only [step]
    cases hc : completeTask a.user taskId points with
    | none => exact h
    | some u1 =>
      simp only
      rw [(completeTask_session _ _ _ _ hc).1]; exact h
  | referral newUser => exact h

theorem run_idle (ops : List Op) (a : Account) (h : a.user.isEarning = false)
    (hops : ∀ op ∈ ops, ∀ t, op ≠ .startEarning t) : (run a ops).user.isEarning = false := by
  induction ops generalizing a with
  | nil => exact h
  | cons op ops ih =>
    exact ih (step a op) (step_idle a op h (hops op (List.mem_cons_self _ _)))
      (fun o ho => hops o (List.mem_cons_of_mem _ ho))

/-- C10 (as stated, refuted). A `MonthlyBooster` whose session start (1000 ms)
lies after the clock value 0: `claim()` returns 0 and changes nothing, and
`calculateEarnings()` right after it is -3, not 0. -/
theorem calculateEarnings_after_claim_negative :
    calculateEarnings
      (claim
        { User.create "2" "bob" none 0 with
          role := "MonthlyBooster", isEarning := true, lastStartTime := some 1000 } 0).2 0 =
      -3 := by
  have h : calculateEarnings
      { User.create "2" "bob" none 0 with
        role := "MonthlyBooster", isEarning := true, lastStartTime := some 1000 } 0 = -3 := by
    rw [calculateEarnings_booster _ 0 1000 rfl rfl (Or.inl rfl), baseEarnings_minus_1s]
    norm_num
  rw [claim_nonpos _ 0 (by rw [h]; norm_num)]
  exact h

/-- C10 (amended). When `calculateEarnings()` is not negative at `now`, `claim()`
followed by `calculateEarnings()` at the same clock value returns 0; and after a
`claim()` that credited a positive amount the account is idle
(`isEarning = false`, `lastStartTime = null`) and `calculateEarnings()` returns
0 at every clock value, through any operations, until `startEarning()` is called
again. -/
theorem calculateEarnings_after_claim :
    (∀ (u : User) (now : Date), 0 ≤ calculateEarnings u now →
      calculateEarnings (claim u now).2 now = 0) ∧
    (∀ (a : Account) (now : Date), 0 < (claim a.user now).1 →
      (claim a.user now).2.isEarning = false ∧ (claim a.user now).2.lastStartTime = none ∧
      ∀ (ops : List Op) (later : Date), (∀ op ∈ ops, ∀ t, op ≠ .startEarning t) →
        calculateEarnings (run { a with user := (claim a.user now).2 } ops).user later = 0) := by
  refine ⟨?_, ?_⟩
  · intro u now h0
    rcases lt_or_le 0 (calculateEarnings u now) with h | h
    · apply calculateEarnings_not_earning
      rw [claim_pos u now h]
    · rw [claim_nonpos u now h]
      exact le_antisymm h h0
  · intro a now hpos
    have he : 0 < calculateEarnings a.user now := by
      by_contra hn
      rw [claim_nonpos a.user now (not_lt.mp hn)] at hpos
      exact lt_irrefl _ hpos
    have hc := claim_pos a.user now he
    refine ⟨by rw [hc], by rw [hc], ?_⟩
    intro ops later hops
    apply calculateEarnings_not_earning
    exact run_idle ops _ (by rw [hc]) hops

/-- A `User` that started at 0 claims at two hours, then is given a role and
credited: `calculateEarnings()` is 0 a day later. -/
theorem calculateEarnings_after_claim_witness :
    calculateEarnings
      (run
        { self := 0
          user := (claim
            { User.create "1" "alice" none 0 with isEarning := true, lastStartTime := some 0 }
            7200000).2
          stakes := [] }
        [.setRole "LifeTime6xBooster" none 7200001, .addEarnings 5]).user 86400000 = 0 :=
  (calculateEarnings_after_claim.2
    ⟨0, { User.create "1" "alice" none 0 with isEarning := true, lastStartTime := some 0 }, []⟩
    7200000
    (by
      have h : calculateEarnings
          { User.create "1" "alice" none 0 with isEarning := true, lastStartTime := some 0 }
          7200000 = 10800 := by
        rw [calculateEarnings_user _ 7200000 0 rfl rfl rfl,
          baseEarnings_whole_hours 0 7200000 2 (by norm_num) (by norm_num)]
        norm_num
      simp only [claim, h]
      norm_num)).2.2
    [.setRole "LifeTime6xBooster" none 7200001, .addEarnings 5] 86400000
    (by
      intro op hop t
      simp only [List.mem_cons, List.mem_singleton, List.not_mem_nil, or_false] at hop
      rcases hop with rfl | rfl <;> exact fun hne => Op.noConfusion hne)

/-! ## Staking -/

/-- C5. `stake` fails with `InsufficientBalance` when `amount > balance`,
otherwise with `InvalidPeriod` unless the period is 3, 15 or 45 (a failure
carries no new state: balance and stake set are as before); otherwise it
succeeds: the created stake has principal `amount`, `claimed = false`,
`endDate = now + period` days and rate 3%, 10%, 35% for 3, 15, 45 days, its id
is appended to the account's stake set and the balance decreases by exactly
`amount`. -/
theorem stake_spec (self : ObjectId) (u : User) (stakes : List Stake) (amount : ℚ)
    (period : Int) (now : Date) :
    (u.balance < amount →
      stake self u stakes amount period now = .error .insufficientBalance ∧
      step ⟨self, u, stakes⟩ (.stake amount period now) = ⟨self, u, stakes⟩) ∧
    (amount ≤ u.balance → period ≠ 3 → period ≠ 15 → period ≠ 45 →
      stake self u stakes amount period now = .error .invalidPeriod ∧
      step ⟨self, u, stakes⟩ (.stake amount period now) = ⟨self, u, stakes⟩) ∧
    (amount ≤ u.balance → (period = 3 ∨ period = 15 ∨ period = 45) →
      ∃ rate : ℚ,
        (period = 3 → rate = 3 / 100) ∧ (period = 15 → rate = 10 / 100) ∧
        (period = 45 → rate = 35 / 100) ∧
        stake self u stakes amount period now =
          .ok (stakes.length,
            { user := self, amount := amount, period := period, interestRate := rate,
              endDate := now + period * 86400000, claimed := false },
            { u with balance := u.balance - amount, stakes := u.stakes ++ [stakes.length] },
            stakes ++ [{ user := self, amount := amount, period := period,
                         interestRate := rate, endDate := now + period * 86400000,
                         claimed := false }])) := by
  refine ⟨?_, ?_, ?_⟩
  · intro h
    simp [stake, step, h]
  · intro h h3 h15 h45
    have hb : ¬ u.balance < amount := not_lt.mpr h
    simp [stake, step, hb, stakeInterestRate, h3, h15, h45]
  · intro h hp
    have hb : ¬ u.balance < amount := not_lt.mpr h
    rcases hp with hp | hp | hp
    · exact ⟨3 / 100, fun _ => rfl, by intro h'; omega, by intro h'; omega,
        by simp [stake, hb, stakeInterestRate, hp, msPerDay]⟩
    · exact ⟨10 / 100, by intro h'; omega, fun _ => rfl, by intro h'; omega,
        by simp [stake, hb, stakeInterestRate, hp, msPerDay]⟩
    · exact ⟨35 / 100, by intro h'; omega, by intro h'; omega, fun _ => rfl,
        by simp [stake, hb, stakeInterestRate, hp, msPerDay]⟩

/-- An account with balance 1000 staking 1000 for 15 days at time 0. -/
theorem stake_spec_witness :
    stake 0 { User.create "1" "alice" none 0 with balance := 1000 } [] 1000 15 0 =
      .ok (0,
        { user := 0, amount := 1000, period := 15, interestRate := 10 / 100,
          endDate := 1296000000, claimed := false },
        { User.create "1" "alice" none 0 with balance := 0, stakes := [0] },
        [{ user := 0, amount := 1000, period := 15, interestRate := 10 / 100,
           endDate := 1296000000, claimed := false }]) := by
  obtain ⟨rate, _, h15, _, h⟩ :=
    (stake_spec 0 { User.create "1" "alice" none 0 with balance := 1000 } [] 1000 15 0).2.2
      (by norm_num [User.create]) (Or.inr (Or.inl rfl))
  rw [h, h15 rfl]
  norm_num [User.create]

/-- C4. After `stake(1000, 15)` at time 0 on a balance of 1000, `claimStake` at
the end date credits 1100, marks the stake claimed and removes it from the stake
set, but the method returns the number 1100, not a record, so the controller's
response carries no `principal`, `interest` or `totalClaimed`; before the end
date the call fails with `NotMatured`. -/
theorem claimStake_returns_number :
    claimStake { User.create "1" "alice" none 0 with balance := 0, stakes := [0] }
        [{ user := 0, amount := 1000, period := 15, interestRate := 10 / 100,
           endDate := 1296000000, claimed := false }] 0 1295999999 =
      .error .notMatured ∧
    claimStake { User.create "1" "alice" none 0 with balance := 0, stakes := [0] }
        [{ user := 0, amount := 1000, period := 15, interestRate := 10 / 100,
           endDate := 1296000000, claimed := false }] 0 1296000000 =
      .ok (1100,
        { User.create "1" "alice" none 0 with balance := 1100, stakes := [] },
        [{ user := 0, amount := 1000, period := 15, interestRate := 10 / 100,
           endDate := 1296000000, claimed := true }]) ∧
    (claimStakeController
        { users := [{ User.create "1" "alice" none 0 with balance := 0, stakes := [0] }],
          stakes := [{ user := 0, amount := 1000, period := 15, interestRate := 10 / 100,
                       endDate := 1296000000, claimed := false }] }
        "1" 0 1296000000).1 =
      { status := 200, message := "Stake claimed successfully", principal := none,
        interest := none, totalClaimed := none } := by
  refine ⟨?_, ?_, ?_⟩
  · norm_num [claimStake, User.create]
  · norm_num [claimStake, User.create]
  · have hf : findOne (fun u => u.telegramUserId == "1")
        [{ User.create "1" "alice" none 0 with balance := 0, stakes := [0] }] = some 0 := by
      decide
    simp only [claimStakeController, hf]
    norm_num [claimStake, User.create, numberProperty]

/-! ### Frame lemmas: what each account method leaves alone -/

@[simp] theorem startEarning_stakes (u : User) (now : Date) :
    (startEarning u now).2.stakes = u.stakes := by
  unfold startEarning; split <;> rfl

@[simp] theorem stopEarning_stakes (u : User) : (stopEarning u).2.stakes = u.stakes := by
  unfold stopEarning; split <;> rfl

@[simp] theorem addEarnings_stakes (u : User) (amount : ℚ) :
    (addEarnings u amount).stakes = u.stakes := rfl

@[simp] theorem claim_stakes (u : User) (now : Date) : (claim u now).2.stakes = u.stakes := by
  unfold claim
  simp only
  split
  · simp
  · rfl

@[simp] theorem setRole_stakes (u : User) (role : String) (d : Option ℚ) (now : Date) :
    (setRole u role d now).stakes = u.stakes := by
  unfold setRole
  cases d with
  | none => simp only; split <;> rfl
  | some d => simp only; split <;> [rfl; (split <;> rfl)]

@[simp] theorem checkAndUpdateRole_stakes (u : User) (now : Date) :
    (checkAndUpdateRole u now).stakes = u.stakes := by
  unfold checkAndUpdateRole
  cases u.roleExpiryDate with
  | none => rfl
  | some e => simp only; split <;> simp

@[simp] theorem applyScore_stakes (u : User) (score : ℚ) (now : Date) :
    (applyScore u score now).stakes = u.stakes := rfl

@[simp] theorem creditReferrer_stakes (u : User) (newUser : ObjectId) :
    (creditReferrer u newUser).stakes = u.stakes := rfl

theorem completeTask_stakes (u u1 : User) (taskId : ObjectId) (points : ℚ)
    (h : completeTask u taskId points = some u1) : u1.stakes = u.stakes := by
  unfold completeTask at h
  split at h
  · simp at h
  · simp only [Option.some.injEq] at h
    subst h
    rfl

/-- What a successful `stake` returns. -/
theorem stake_ok (self : ObjectId) (u : User) (stakes : List Stake) (amount : ℚ)
    (period : Int) (now : Date) (id : ObjectId) (st : Stake) (u1 : User) (s1 : List Stake)
    (h : stake self u stakes amount period now = .ok (id, st, u1, s1)) :
    u1 = { u with stakes := u.stakes ++ [stakes.length], balance := u.balance - amount } ∧
    s1 = stakes ++ [st] ∧ id = stakes.length := by
  unfold stake at h
  split at h
  · simp at h
  · cases hr : stakeInterestRate period with
    | none => simp [hr] at h
    | some r =>
      simp only [hr, Except.ok.injEq, Prod.mk.injEq] at h
      obtain ⟨h1, h2, h3, h4⟩ := h
      subst h1 h2 h3 h4
      exact ⟨rfl, rfl, rfl⟩

/-- What a successful `claimStake` returns. -/
theorem claimStake_ok (u : User) (stakes : List Stake) (stakeId : ObjectId) (now : Date)
    (amt : ℚ) (u1 : User) (s1 : List Stake)
    (h : claimStake u stakes stakeId now = .ok (amt, u1, s1)) :
    ∃ st, stakes[stakeId]? = some st ∧ stakeId ∈ u.stakes ∧ st.claimed = false ∧
      st.endDate ≤ now ∧ amt = st.amount + st.amount * st.interestRate ∧
      u1 = { u with balance := u.balance + amt,
                    stakes := u.stakes.filter (fun id => id != stakeId) } ∧
      s1 = stakes.set stakeId { st with claimed := true } := by
  unfold claimStake at h
  cases hs : stakes[stakeId]? with
  | none => simp [hs] at h
  | some st =>
    simp only [hs] at h
    split at h
    · simp at h
    · rename_i hmem
      split at h
      · simp at h
      · rename_i hcl
        split at h
        · simp at h
        · rename_i hend
          simp only [Except.ok.injEq, Prod.mk.injEq] at h
          obtain ⟨h1, h2, h3⟩ := h
          subst h1 h2 h3
          refine ⟨st, rfl, ?_, ?_, ?_, rfl, rfl, rfl⟩
          · simpa using hmem
          · simpa using hcl
          · exact not_lt.mp hend

/-- Outside the stake set the call is `StakeNotFound`, whatever the Stake
collection holds. -/
theorem claimStake_not_mem (u : User) (stakes : List Stake) (stakeId : ObjectId) (now : Date)
    (h : stakeId ∉ u.stakes) : claimStake u stakes stakeId now = .error .stakeNotFound := by
  unfold claimStake
  cases stakes[stakeId]? <;> simp [h]

/-- A successful `claimStake` removes the id from the stake set and keeps the
stake in the collection. -/
theorem claimStake_ok_removes (u : User) (stakes : List Stake) (stakeId : ObjectId) (now : Date)
    (amt : ℚ) (u1 : User) (s1 : List Stake)
    (h : claimStake u stakes stakeId now = .ok (amt, u1, s1)) :
    stakeId ∉ u1.stakes ∧ stakeId < s1.length := by
  obtain ⟨st, hs, -, -, -, -, hu, hst⟩ := claimStake_ok u stakes stakeId now amt u1 s1 h
  obtain ⟨hlt, -⟩ := List.getElem?_eq_some_iff.mp hs
  subst hu hst
  simp [hlt]

/-- No operation puts an id of an existing stake back into the stake set. -/
theorem step_preserves_not_mem (a : Account) (op : Op) (stakeId : ObjectId)
    (h : stakeId ∉ a.user.stakes ∧ stakeId < a.stakes.length) :
    stakeId ∉ (step a op).user.stakes ∧ stakeId < (step a op).stakes.length := by
  obtain ⟨hm, hl⟩ := h
  cases op with
  | startEarning now => simp [step, hm, hl]
  | stopEarning => simp [step, hm, hl]
  | claim now => simp [step, hm, hl]
  | addEarnings amount => simp [step, hm, hl]
  | setRole role d now => simp [step, hm, hl]
  | checkAndUpdateRole now => simp [step, hm, hl]
  | stake amount period now =>
    simp only [step]
    cases hst : stake a.self a.user a.stakes amount period now with
    | error e => exact ⟨hm, hl⟩
    | ok r =>
      obtain ⟨id, st, u1, s1⟩ := r
      obtain ⟨hu, hs, -⟩ := stake_ok _ _ _ _ _ _ _ _ _ _ hst
      subst hu hs
      simp only [List.mem_append, List.mem_singleton, List.length_append, List.length_singleton]
      exact ⟨by rintro (h | h) <;> [exact hm h; exact absurd hl (h ▸ lt_irrefl _)],
        Nat.lt_succ_of_lt hl⟩
  | claimStake sid now =>
    simp only [step]
    cases hst : claimStake a.user a.stakes sid now with
    | error e => exact ⟨hm, hl⟩
    | ok r =>
      obtain ⟨amt, u1, s1⟩ := r
      obtain ⟨st, -, -, -, -, -, hu, hs⟩ := claimStake_ok _ _ _ _ _ _ _ hst
      subst hu hs
      simp only [List.length_set]
      exact ⟨fun h => hm (List.mem_filter.mp h).1, hl⟩
  | playGame score now => simp [step, hm, hl]
  | completeTask taskId points =>
    simp only [step]
    cases hc : completeTask a.user taskId points with
    | none => exact ⟨hm, hl⟩
    | some u1 =>
      simp only
      rw [completeTask_stakes _ _ _ _ hc]
      exact ⟨hm, hl⟩
  | referral newUser => simp [step, hm, hl]

theorem run_preserves_not_mem (ops : List Op) (a : Account) (stakeId : ObjectId)
    (h : stakeId ∉ a.user.stakes ∧ stakeId < a.stakes.length) :
    stakeId ∉ (run a ops).user.stakes ∧ stakeId < (run a ops).stakes.length := by
  induction ops generalizing a with
  | nil => exact h
  | cons op ops ih => exact ih (step a op) (step_preserves_not_mem a op stakeId h)

/-- C3. After `stake(1000, 15)` and a successful `claimStake`, the second
`claimStake` of the same id by the same account fails with `StakeNotFound`
('Stake not found or does not belong to this user'), not with `AlreadyClaimed`
('Stake has already been claimed'): the first claim removed the id from the stake
set (line 248), and membership is tested (line 230) before the `claimed` flag
(line 234), so the guard written for the repeated claim is not the one that
answers. -/
theorem reclaim_is_not_alreadyClaimed :
    claimStake { User.create "1" "alice" none 0 with stakes := [0] }
        [{ user := 0, amount := 1000, period := 15, interestRate := 10 / 100,
           endDate := 1296000000, claimed := false }] 0 1296000000 =
      .ok (1100,
        { User.create "1" "alice" none 0 with balance := 1100, stakes := [] },
        [{ user := 0, amount := 1000, period := 15, interestRate := 10 / 100,
           endDate := 1296000000, claimed := true }]) ∧
    claimStake { User.create "1" "alice" none 0 with balance := 1100, stakes := [] }
        [{ user := 0, amount := 1000, period := 15, interestRate := 10 / 100,
           endDate := 1296000000, claimed := true }] 0 1296000001 =
      .error .stakeNotFound ∧
    claimStake { User.create "1" "alice" none 0 with balance := 1100, stakes := [] }
        [{ user := 0, amount := 1000, period := 15, interestRate := 10 / 100,
           endDate := 1296000000, claimed := true }] 0 1296000001 ≠
      .error .alreadyClaimed := by
  have h2 : claimStake { User.create "1" "alice" none 0 with balance := 1100, stakes := [] }
      [{ user := 0, amount := 1000, period := 15, interestRate := 10 / 100,
         endDate := 1296000000, claimed := true }] 0 1296000001 =
      .error .stakeNotFound := by
    norm_num [claimStake, User.create]
  refine ⟨?_, h2, ?_⟩
  · norm_num [claimStake, User.create]
  · rw [h2]
    intro h
    cases h

/-- The same for every account and every stake: after a successful `claimStake`
the id is out of the stake set and stays out, so every later `claimStake` of it
by the account, after any operations in between and at any clock value, is
answered by the membership test with `StakeNotFound`, never by the `claimed`
guard; the call changes nothing (no double credit). -/
theorem claimStake_after_claim (a : Account) (stakeId : ObjectId) (now : Date) (amt : ℚ)
    (u1 : User) (s1 : List Stake)
    (h : claimStake a.user a.stakes stakeId now = .ok (amt, u1, s1))
    (ops : List Op) (later : Date) :
    claimStake (run { a with user := u1, stakes := s1 } ops).user
        (run { a with user := u1, stakes := s1 } ops).stakes stakeId later =
      .error .stakeNotFound ∧
    step (run { a with user := u1, stakes := s1 } ops) (.claimStake stakeId later) =
      run { a with user := u1, stakes := s1 } ops := by
  have hinv := run_preserves_not_mem ops { a with user := u1, stakes := s1 } stakeId
    (claimStake_ok_removes _ _ _ _ _ _ _ h)
  have herr := claimStake_not_mem (run { a with user := u1, stakes := s1 } ops).user
    (run { a with user := u1, stakes := s1 } ops).stakes stakeId later hinv.1
  refine ⟨herr, ?_⟩
  simp only [step, herr]

/-- The stake of 1000 claimed at its end date, then a repeated claim, a new
session and a new stake: the next claim of the first id is `StakeNotFound`. -/
theorem claimStake_after_claim_witness :
    claimStake
        (run ⟨0, { User.create "1" "alice" none 0 with balance := 1100, stakes := [] },
              [{ user := 0, amount := 1000, period := 15, interestRate := 10 / 100,
                 endDate := 1296000000, claimed := true }]⟩
          [.claimStake 0 1296000001, .startEarning 1296000002, .stake 100 3 1296000003]).user
        (run ⟨0, { User.create "1" "alice" none 0 with balance := 1100, stakes := [] },
              [{ user := 0, amount := 1000, period := 15, interestRate := 10 / 100,
                 endDate := 1296000000, claimed := true }]⟩
          [.claimStake 0 1296000001, .startEarning 1296000002, .stake 100 3 1296000003]).stakes
        0 1296000004 =
      .error .stakeNotFound :=
  (claimStake_after_claim
    ⟨0, { User.create "1" "alice" none 0 with stakes := [0] },
      [{ user := 0, amount := 1000, period := 15, interestRate := 10 / 100,
         endDate := 1296000000, claimed := false }]⟩
    0 1296000000 1100
    { User.create "1" "alice" none 0 with balance := 1100, stakes := [] }
    [{ user := 0, amount := 1000, period := 15, interestRate := 10 / 100,
       endDate := 1296000000, claimed := true }]
    (by norm_num [claimStake, User.create])
    [.claimStake 0 1296000001, .startEarning 1296000002, .stake 100 3 1296000003]
    1296000004).1

/-! ## Balance -/

/-- C2. From a new account (balance 0), `playGame` with score -1 leaves the
balance at -1; and `stake(-100, 3)` passes the balance guard, after which
`claimStake` at maturity credits -103 and leaves the balance at -3. -/
theorem balance_negative_reachable :
    (playGame [User.create "1" "alice" none 0] "alice" (-1) 0).1 = 200 ∧
    ((playGame [User.create "1" "alice" none 0] "alice" (-1) 0).2.map fun u => u.balance) =
      [-1] ∧
    (run (Account.new 0 "1" "alice" none 0 []) [.playGame (-1) 0]).user.balance = -1 ∧
    (run (Account.new 0 "1" "alice" none 0 [])
      [.stake (-100) 3 0, .claimStake 0 259200000]).user.balance = -3 := by
  have hf : findOne (fun u => u.username == "alice") [User.create "1" "alice" none 0] =
      some 0 := by decide
  refine ⟨?_, ?_, ?_, ?_⟩
  · simp only [playGame, hf, findById]
    simp
  · simp only [playGame, hf, findById]
    simp [applyScore, User.create]
  · simp [run, step, Account.new, applyScore, User.create]
  · norm_num [run, step, Account.new, stake, claimStake, stakeInterestRate, msPerDay,
      User.create]

theorem stakeInterestRate_nonneg (period : Int) (rate : ℚ)
    (h : stakeInterestRate period = some rate) : 0 ≤ rate := by
  unfold stakeInterestRate at h
  split at h
  · simp only [Option.some.injEq] at h; subst h; norm_num
  · split at h
    · simp only [Option.some.injEq] at h; subst h; norm_num
    · split at h
      · simp only [Option.some.injEq] at h; subst h; norm_num
      · simp at h

theorem setRole_balance (u : User) (role : String) (d : Option ℚ) (now : Date) :
    (setRole u role d now).balance = u.balance := by
  unfold setRole
  cases d with
  | none => simp only; split <;> rfl
  | some d => simp only; split <;> [rfl; (split <;> rfl)]

theorem checkAndUpdateRole_balance (u : User) (now : Date) :
    (checkAndUpdateRole u now).balance = u.balance := by
  unfold checkAndUpdateRole stopEarning
  cases u.roleExpiryDate with
  | none => rfl
  | some e => simp only; split <;> [(split <;> rfl); rfl]

/-- When no operation carries a negative amount, every operation keeps the
balance non-negative: the negative balances come from negative arguments
only. -/
theorem step_solvent (a : Account) (op : Op) (h : Solvent a) (hop : op.NonNeg) :
    Solvent (step a op) := by
  obtain ⟨hb, hs⟩ := h
  cases op with
  | startEarning now =>
    refine ⟨?_, hs⟩
    simp only [step, startEarning]
    split <;> exact hb
  | stopEarning =>
    refine ⟨?_, hs⟩
    simp only [step, stopEarning]
    split <;> exact hb
  | claim now =>
    refine ⟨?_, hs⟩
    simp only [step]
    rcases lt_or_le 0 (calculateEarnings a.user now) with he | he
    · rw [claim_pos a.user now he]
      have : (0 : ℚ) ≤ (calculateEarnings a.user now : ℚ) := by exact_mod_cast le_of_lt he
      exact add_nonneg hb this
    · rw [claim_nonpos a.user now he]
      exact hb
  | addEarnings amount => exact ⟨add_nonneg hb hop, hs⟩
  | setRole role d now =>
    refine ⟨?_, hs⟩
    simp only [step]
    rw [setRole_balance]
    exact hb
  | checkAndUpdateRole now =>
    refine ⟨?_, hs⟩
    simp only [step]
    rw [checkAndUpdateRole_balance]
    exact hb
  | stake amount period now =>
    simp only [step]
    cases hst : stake a.self a.user a.stakes amount period now with
    | error e => exact ⟨hb, hs⟩
    | ok r =>
      obtain ⟨id, st, u1, s1⟩ := r
      have hamt : 0 ≤ amount := hop
      unfold stake at hst
      split at hst
      · simp at hst
      · rename_i hlt
        cases hr : stakeInterestRate period with
        | none => simp [hr] at hst
        | some rate =>
          simp only [hr, Except.ok.injEq, Prod.mk.injEq] at hst
          obtain ⟨-, h2, h3, h4⟩ := hst
          subst h2 h3 h4
          refine ⟨sub_nonneg.mpr (not_lt.mp hlt), ?_⟩
          intro st hmem
          rcases List.mem_append.mp hmem with hm | hm
          · exact hs st hm
          · simp only [List.mem_singleton] at hm
            subst hm
            exact ⟨hamt, stakeInterestRate_nonneg period rate hr⟩
  | claimStake sid now =>
    simp only [step]
    cases hst : claimStake a.user a.stakes sid now with
    | error e => exact ⟨hb, hs⟩
    | ok r =>
      obtain ⟨amt, u1, s1⟩ := r
      obtain ⟨st, hget, -, -, -, hamt, hu, hs1⟩ := claimStake_ok _ _ _ _ _ _ _ hst
      have hmem : st ∈ a.stakes := List.getElem?_mem hget
      obtain ⟨h1, h2⟩ := hs st hmem
      subst hu hs1
      refine ⟨?_, ?_⟩
      · have : 0 ≤ amt := by
          rw [hamt]
          exact add_nonneg h1 (mul_nonneg h1 h2)
        exact add_nonneg hb this
      · intro x hx
        rcases List.mem_or_eq_of_mem_set hx with hx | hx
        · exact hs x hx
        · subst hx
          exact ⟨h1, h2⟩
  | playGame score now => exact ⟨add_nonneg hb hop, hs⟩
  | completeTask taskId points =>
    simp only [step]
    cases hc : completeTask a.user taskId points with
    | none => exact ⟨hb, hs⟩
    | some u1 =>
      refine ⟨?_, hs⟩
      unfold completeTask at hc
      split at hc
      · simp at hc
      · simp only [Option.some.injEq] at hc
        subst hc
        exact add_nonneg hb hop
  | referral newUser =>
    refine ⟨?_, hs⟩
    exact add_nonneg hb (by norm_num)

theorem run_solvent (ops : List Op) (a : Account) (h : Solvent a)
    (hops : ∀ op ∈ ops, op.NonNeg) : Solvent (run a ops) := by
  induction ops generalizing a with
  | nil => exact h
  | cons op ops ih =>
    exact ih (step a op) (step_solvent a op h (hops op (List.mem_cons_self _ _)))
      (fun o ho => hops o (List.mem_cons_of_mem _ ho))

/-! ## Referral cascade -/

theorem acyclic_iff (users : List User) :
    Acyclic users ↔ ∀ (i : ObjectId) (doc : User) (j : ObjectId),
      users[i]? = some doc → doc.referredBy = some j → j < i := by
  constructor
  · intro h i doc j hi hj
    have hlt : i < users.length := (List.getElem?_eq_some_iff.mp hi).1
    exact h i (List.mem_range.mpr hlt) j (by simp [hi, hj])
  · intro h i _ j hj
    simp only [Option.mem_def, Option.bind_eq_some] at hj
    obtain ⟨doc, hd, hr⟩ := hj
    exact h i doc j hd hr

theorem addEarnings_zero (u : User) : addEarnings u 0 = u := by
  simp [addEarnings]

theorem addEarnings_add (u : User) (x y : ℚ) :
    addEarnings (addEarnings u x) y = addEarnings u (x + y) := by
  simp [addEarnings, add_assoc]

theorem cascade_none (bs : List ℚ) (users : List User) : cascade bs none users = users := by
  cases bs <;> rfl

theorem chainCredit_none (par : ObjectId → Option ObjectId) (bs : List ℚ) (j : ObjectId) :
    chainCredit par bs none j = 0 := by
  cases bs <;> rfl

theorem findById_eq_some (users : List User) (o : Option ObjectId) (p : ObjectId) (doc : User)
    (h : findById users o = some (p, doc)) : o = some p ∧ users[p]? = some doc := by
  unfold findById at h
  cases o with
  | none => simp at h
  | some i =>
    cases hi : users[i]? with
    | none => simp [hi] at h
    | some d =>
      simp only [hi, Option.some.injEq, Prod.mk.injEq] at h
      obtain ⟨h1, h2⟩ := h
      subst h1 h2
      exact ⟨rfl, hi⟩

/-- Saving a document with the same `referredBy` keeps the referrer of every
account. -/
theorem referrerOf_set (users : List User) (i : ObjectId) (doc doc1 : User)
    (h : users[i]? = some doc) (href : doc1.referredBy = doc.referredBy) :
    referrerOf (users.set i doc1) = referrerOf users := by
  have hlt : i < users.length := (List.getElem?_eq_some_iff.mp h).1
  have hget : ∀ k : Nat, ((users.set i doc1)[k]?).map (fun (d : User) => d.referredBy) =
      (users[k]?).map (fun (d : User) => d.referredBy) := by
    intro k
    rw [List.getElem?_set]
    by_cases hik : i = k
    · subst hik
      simp [hlt, h, href]
    · simp [hik]
  have hsome : ∀ k : Nat, ((users.set i doc1)[k]?).isSome = (users[k]?).isSome := by
    intro k
    have := congrArg Option.isSome (hget k)
    simpa using this
  funext k
  unfold referrerOf
  have hk := hget k
  cases h1 : (users.set i doc1)[k]? with
  | none =>
    rw [h1] at hk
    cases h2 : users[k]? with
    | none => rfl
    | some d2 => rw [h2] at hk; simp at hk
  | some d1 =>
    rw [h1] at hk
    cases h2 : users[k]? with
    | none => rw [h2] at hk; simp at hk
    | some d2 =>
      rw [h2] at hk
      simp only [Option.map_some', Option.some.injEq] at hk
      simp only [hk]
      cases hr : d2.referredBy with
      | none => rfl
      | some q =>
        have hq := hsome q
        unfold findById
        simp only
        cases h3 : (users.set i doc1)[q]? with
        | none =>
          rw [h3] at hq
          cases h4 : users[q]? with
          | none => rfl
          | some d4 => rw [h4] at hq; simp at hq
        | some d3 =>
          rw [h3] at hq
          cases h4 : users[q]? with
          | none => rw [h4] at hq; simp at hq
          | some d4 => rfl

/-- The cascade loop credits each account the sum of the bonuses of the levels
at which the walk meets it, and changes nothing else. -/
theorem cascade_getElem (bs : List ℚ) (users : List User) (i : ObjectId) (doc : User)
    (j : ObjectId) (h : users[i]? = some doc) :
    (cascade bs (some (i, doc)) users)[j]? =
      (users[j]?).map fun d => addEarnings d (chainCredit (referrerOf users) bs (some i) j) := by
  induction bs generalizing users i doc with
  | nil =>
    simp only [cascade, chainCredit]
    cases users[j]? <;> simp [addEarnings_zero]
  | cons b rest ih =>
    have hlt : i < users.length := (List.getElem?_eq_some_iff.mp h).1
    have hpar := referrerOf_set users i doc (addEarnings doc ((⌊30000 * b⌋ : Int) : ℚ)) h rfl
    have hset : (users.set i (addEarnings doc ((⌊30000 * b⌋ : Int) : ℚ)))[j]? =
        if i = j then some (addEarnings doc ((⌊30000 * b⌋ : Int) : ℚ)) else users[j]? := by
      rw [List.getElem?_set]
      simp [hlt]
    simp only [cascade, chainCredit]
    have href : (addEarnings doc ((⌊30000 * b⌋ : Int) : ℚ)).referredBy = doc.referredBy := rfl
    rw [href]
    cases hf : findById (users.set i (addEarnings doc ((⌊30000 * b⌋ : Int) : ℚ)))
        doc.referredBy with
    | none =>
      have hnone : referrerOf users i = none := by
        rw [← hpar]
        simp [referrerOf, List.getElem?_set, hlt, href, hf]
      rw [cascade_none, hnone, chainCredit_none, hset]
      by_cases hij : i = j
      · subst hij
        simp [h]
      · simp [hij]
        cases users[j]? <;> simp [addEarnings_zero]
    | some pd =>
      obtain ⟨p, pdoc⟩ := pd
      obtain ⟨hp1, hp2⟩ := findById_eq_some _ _ _ _ hf
      have hsome : referrerOf users i = some p := by
        rw [← hpar]
        simp [referrerOf, List.getElem?_set, hlt, href, hf]
      rw [ih _ p pdoc hp2, hpar, hsome, hset]
      by_cases hij : i = j
      · subst hij
        simp [h, addEarnings_add]
      · simp [hij]

theorem cascade_length (bs : List ℚ) (o : Option (ObjectId × User)) (users : List User) :
    (cascade bs o users).length = users.length := by
  induction bs generalizing o users with
  | nil => rfl
  | cons b rest ih =>
    cases o with
    | none => rfl
    | some pd =>
      obtain ⟨i, doc⟩ := pd
      simp only [cascade]
      rw [ih, List.length_set]

theorem referrerOf_lt (users : List User) (hwf : Acyclic users) (i p : ObjectId)
    (h : referrerOf users i = some p) : p < i ∧ p < users.length := by
  unfold referrerOf at h
  cases hi : users[i]? with
  | none => simp [hi] at h
  | some doc =>
    simp only [hi, Option.map_eq_some'] at h
    obtain ⟨⟨q, qdoc⟩, hq, hqp⟩ := h
    simp only at hqp
    subst hqp
    obtain ⟨h1, h2⟩ := findById_eq_some _ _ _ _ hq
    exact ⟨(acyclic_iff users).mp hwf i doc q hi h1, (List.getElem?_eq_some_iff.mp h2).1⟩

theorem ancestor_succ_succ (users : List User) (r p : ObjectId) (level : Nat)
    (h : referrerOf users r = some p) :
    ancestor users r (level + 2) = ancestor users p (level + 1) := by
  simp [ancestor, h]

theorem ancestor_le (users : List User) (hwf : Acyclic users) (level : Nat) (r a : ObjectId)
    (h : ancestor users r level = some a) : a ≤ r ∧ a < users.length := by
  induction level generalizing r with
  | zero => simp [ancestor] at h
  | succ n ih =>
    cases n with
    | zero =>
      simp only [ancestor] at h
      split at h
      · rename_i hlt
        simp only [Option.some.injEq] at h
        subst h
        exact ⟨le_refl _, hlt⟩
      · simp at h
    | succ m =>
      cases hp : referrerOf users r with
      | none => simp [ancestor, hp] at h
      | some p =>
        rw [ancestor_succ_succ users r p m hp] at h
        obtain ⟨h1, h2⟩ := ih p h
        exact ⟨le_trans h1 (le_of_lt (referrerOf_lt users hwf r p hp).1), h2⟩

/-- Along the chain the `_id`s strictly decrease, so no account is met twice. -/
theorem ancestor_strict (users : List User) (hwf : Acyclic users) (l1 l2 : Nat)
    (r a1 a2 : ObjectId) (h1 : ancestor users r l1 = some a1)
    (h2 : ancestor users r l2 = some a2) (hlt : l1 < l2) : a2 < a1 := by
  induction l1 generalizing r l2 with
  | zero => simp [ancestor] at h1
  | succ n ih =>
    obtain ⟨m, rfl⟩ : ∃ m, l2 = m + 2 := ⟨l2 - 2, by omega⟩
    cases hp : referrerOf users r with
    | none => simp [ancestor, hp] at h2
    | some p =>
      rw [ancestor_succ_succ users r p m hp] at h2
      have hpr := (referrerOf_lt users hwf r p hp).1
      cases n with
      | zero =>
        simp only [ancestor] at h1
        split at h1
        · simp only [Option.some.injEq] at h1
          subst h1
          exact lt_of_le_of_lt (ancestor_le users hwf _ p a2 h2).1 hpr
        · simp at h1
      | succ k =>
        rw [ancestor_succ_succ users r p k hp] at h1
        exact ih (m + 1) p h1 h2 (by omega)

theorem chainCredit_above (users : List User) (hwf : Acyclic users) (bs : List ℚ)
    (o : Option ObjectId) (j : ObjectId) (h : ∀ i, o = some i → i < j) :
    chainCredit (referrerOf users) bs o j = 0 := by
  induction bs generalizing o with
  | nil => rfl
  | cons b rest ih =>
    cases o with
    | none => rfl
    | some i =>
      have hij : i < j := h i rfl
      have hne : i ≠ j := ne_of_lt hij
      simp only [chainCredit, hne, if_false, zero_add]
      apply ih
      intro p hp
      exact lt_trans (referrerOf_lt users hwf i p hp).1 hij

/-- The account at `level` of the chain is credited the bonus of that level. -/
theorem chainCredit_level (users : List User) (hwf : Acyclic users) (level : Nat)
    (bs : List ℚ) (r a : ObjectId) (b : ℚ) (ha : ancestor users r (level + 1) = some a)
    (hb : bs[level]? = some b) :
    chainCredit (referrerOf users) bs (some r) a = ((⌊30000 * b⌋ : Int) : ℚ) := by
  induction level generalizing r bs with
  | zero =>
    cases bs with
    | nil => simp at hb
    | cons b0 rest =>
      simp only [List.getElem?_cons_zero, Option.some.injEq] at hb
      subst hb
      simp only [ancestor] at ha
      split at ha
      · simp only [Option.some.injEq] at ha
        subst ha
        simp only [chainCredit, if_true]
        rw [chainCredit_above users hwf rest _ r
          (fun p hp => (referrerOf_lt users hwf r p hp).1)]
        simp
      · simp at ha
  | succ n ih =>
    cases bs with
    | nil => simp at hb
    | cons b0 rest =>
      simp only [List.getElem?_cons_succ] at hb
      cases hp : referrerOf users r with
      | none => simp [ancestor, hp] at ha
      | some p =>
        rw [ancestor_succ_succ users r p n hp] at ha
        have hap := (ancestor_le users hwf _ p a ha).1
        have hpr := (referrerOf_lt users hwf r p hp).1
        have hne : r ≠ a := by
          intro he
          subst he
          exact absurd (lt_of_le_of_lt hap hpr) (lt_irrefl _)
        simp only [chainCredit, hne, if_false, zero_add, hp]
        exact ih rest p ha hb

/-- An account met at none of the levels walked is credited nothing. -/
theorem chainCredit_off_chain (users : List User) (bs : List ℚ) (r j : ObjectId)
    (hr : r < users.length)
    (h : ∀ level, 1 ≤ level → level ≤ bs.length → ancestor users r level ≠ some j) :
    chainCredit (referrerOf users) bs (some r) j = 0 := by
  induction bs generalizing r with
  | nil => rfl
  | cons b rest ih =>
    have h1 : r ≠ j := by
      intro he
      subst he
      apply h 1 (le_refl _) (by simp)
      simp [ancestor, hr]
    simp only [chainCredit, h1, if_false, zero_add]
    cases hp : referrerOf users r with
    | none => exact chainCredit_none _ _ _
    | some p =>
      have hpl : p < users.length := by
        unfold referrerOf at hp
        cases hi : users[r]? with
        | none => simp [hi] at hp
        | some doc =>
          simp only [hi, Option.map_eq_some'] at hp
          obtain ⟨⟨q, qdoc⟩, hq, hqp⟩ := hp
          simp only at hqp
          subst hqp
          exact (List.getElem?_eq_some_iff.mp (findById_eq_some _ _ _ _ hq).2).1
      apply ih p hpl
      intro level hl1 hl2
      obtain ⟨m, rfl⟩ : ∃ m, level = m + 1 := ⟨level - 1, by omega⟩
      rw [← ancestor_succ_succ users r p m hp]
      exact h (m + 2) (by omega) (by simp only [List.length_cons]; omega)

theorem findOne_lt (p : User → Bool) (users : List User) (r : ObjectId)
    (h : findOne p users = some r) : r < users.length := by
  unfold findOne at h
  split at h
  · rename_i hlt
    simp only [Option.some.injEq] at h
    subst h
    exact hlt
  · simp at h

/-- A registration keeps every `referredBy` pointing to an earlier account. -/
theorem acyclic_append (users : List User) (hwf : Acyclic users) (nu : User) (r : ObjectId)
    (hr : r < users.length) (hnu : nu.referredBy = some r) : Acyclic (users ++ [nu]) := by
  refine (acyclic_iff _).mpr ?_
  intro i doc j hi hj
  rw [List.getElem?_append] at hi
  split at hi
  · exact (acyclic_iff users).mp hwf i doc j hi hj
  · rename_i hge
    have hge1 : users.length ≤ i := not_lt.mp hge
    cases hk : i - users.length with
    | zero =>
      rw [hk] at hi
      simp only [List.getElem?_cons_zero, Option.some.injEq] at hi
      subst hi
      rw [hnu] at hj
      simp only [Option.some.injEq] at hj
      subst hj
      exact lt_of_lt_of_le hr hge1
    | succ k =>
      rw [hk] at hi
      simp at hi

theorem referrerOf_append (users : List User) (hwf : Acyclic users) (nu : User)
    (i : ObjectId) (hi : i < users.length) :
    referrerOf (users ++ [nu]) i = referrerOf users i := by
  have hget : ∀ k : Nat, k < users.length → (users ++ [nu])[k]? = users[k]? := by
    intro k hk
    rw [List.getElem?_append]
    simp [hk]
  unfold referrerOf
  rw [hget i hi]
  cases hd : users[i]? with
  | none => rfl
  | some doc =>
    simp only
    cases hq : doc.referredBy with
    | none => rfl
    | some q =>
      have hqi : q < i := (acyclic_iff users).mp hwf i doc q hd hq
      have hql : q < users.length := lt_trans hqi hi
      simp only [findById]
      rw [hget q hql]

theorem ancestor_append (users : List User) (hwf : Acyclic users) (nu : User) (level : Nat)
    (r : ObjectId) (hr : r < users.length) :
    ancestor (users ++ [nu]) r level = ancestor users r level := by
  induction level generalizing r with
  | zero => rfl
  | succ n ih =>
    cases n with
    | zero =>
      have : r < users.length + 1 := Nat.lt_succ_of_lt hr
      simp [ancestor, hr, this]
    | succ m =>
      simp only [ancestor]
      rw [referrerOf_append users hwf nu r hr]
      cases hp : referrerOf users r with
      | none => rfl
      | some p => exact ih p (referrerOf_lt users hwf r p hp).2

/-- The collection after a successful registration with a referral code. -/
theorem registerUser_ok (users : List User) (telegramUserId username code : String)
    (now : Date) (r : ObjectId) (hcode : code ≠ "")
    (hr : findOne (fun u => u.username == code) users = some r)
    (hok : (registerUser users telegramUserId username (some code) now).1 = 201) :
    ∃ rdoc, users[r]? = some rdoc ∧
      (registerUser users telegramUserId username (some code) now).2 =
        (processReferral (r, rdoc) users.length
          (users ++ [User.create telegramUserId username (some r) now])).set users.length
          (addEarnings (User.create telegramUserId username (some r) now) 30000) := by
  have hlt := findOne_lt _ _ _ hr
  obtain ⟨rdoc, hrdoc⟩ : ∃ rdoc, users[r]? = some rdoc :=
    ⟨users[r], List.getElem?_eq_getElem hlt⟩
  refine ⟨rdoc, hrdoc, ?_⟩
  have hlook : lookupReferrer users (some code) = some (some (r, rdoc)) := by
    simp [lookupReferrer, hcode, hr, findById, hrdoc]
  unfold registerUser at hok ⊢
  rw [hlook] at hok ⊢
  simp only at hok ⊢
  split at hok
  · simp at hok
  · rename_i h1
    rw [if_neg h1]
    split at hok
    · simp at hok
    · rename_i h2
      rw [if_neg h2]
      rfl

/-- What `processReferral` leaves at each position of the collection to which the
new account has been appended. -/
theorem processReferral_getElem (users : List User) (nu rdoc : User) (r j : ObjectId)
    (hrdoc : users[r]? = some rdoc) :
    (processReferral (r, rdoc) users.length (users ++ [nu]))[j]? =
      (((users ++ [nu]).set r (creditReferrer rdoc users.length))[j]?).map fun d =>
        addEarnings d (chainCredit (referrerOf (users ++ [nu])) referralBonuses (some r) j) := by
  have hlt : r < users.length := (List.getElem?_eq_some_iff.mp hrdoc).1
  have hV : (users ++ [nu])[r]? = some rdoc := by
    rw [List.getElem?_append]
    simp [hlt, hrdoc]
  have hU : ((users ++ [nu]).set r (creditReferrer rdoc users.length))[r]? =
      some (creditReferrer rdoc users.length) := by
    rw [List.getElem?_set]
    simp [Nat.lt_succ_of_lt hlt]
  unfold processReferral
  simp only
  rw [cascade_getElem _ _ r _ j hU,
    referrerOf_set (users ++ [nu]) r rdoc (creditReferrer rdoc users.length) hV rfl]

theorem referralBonus_level (level : Nat) (h2 : 2 ≤ level) (h5 : level ≤ 5) :
    ∃ b, referralBonuses[level - 1]? = some b ∧ ((⌊30000 * b⌋ : Int) : ℚ) = levelBonus level := by
  interval_cases level
  · exact ⟨10 / 100, rfl, by norm_num [levelBonus]⟩
  · exact ⟨5 / 100, rfl, by norm_num [levelBonus]⟩
  · exact ⟨25 / 1000, rfl, by norm_num [levelBonus]⟩
  · exact ⟨125 / 10000, rfl, by norm_num [levelBonus]⟩

/-- C6. A registration with a referral code that resolves to account `r`, in a
collection whose `referredBy` links point to earlier accounts: the new account
has balance and totalEarnings 30000; the direct referrer `r` (level 1) gets
21000 (15000 + 6000) and the new account appended to its referrals; the
ancestors at levels 2 to 5 get 3000, 1500, 750, 375; every ancestor at level 6
or higher and every account outside the chain is unchanged. -/
theorem registerUser_cascade (users : List User) (telegramUserId username code : String)
    (now : Date) (r : ObjectId) (hwf : Acyclic users) (hcode : code ≠ "")
    (hr : findOne (fun u => u.username == code) users = some r)
    (hok : (registerUser users telegramUserId username (some code) now).1 = 201) :
    (registerUser users telegramUserId username (some code) now).2.length =
      users.length + 1 ∧
    (registerUser users telegramUserId username (some code) now).2[users.length]? =
      some { User.create telegramUserId username (some r) now with
             balance := 30000, totalEarnings := 30000 } ∧
    (∀ doc, users[r]? = some doc →
      (registerUser users telegramUserId username (some code) now).2[r]? =
        some { doc with
               balance := doc.balance + 21000
               totalEarnings := doc.totalEarnings + 21000
               referrals := doc.referrals ++ [users.length] }) ∧
    (∀ (level : Nat) (a : ObjectId) (doc : User), 2 ≤ level → level ≤ 5 →
      ancestor users r level = some a → users[a]? = some doc →
      (registerUser users telegramUserId username (some code) now).2[a]? =
        some { doc with
               balance := doc.balance + levelBonus level
               totalEarnings := doc.totalEarnings + levelBonus level }) ∧
    (∀ (level : Nat) (a : ObjectId), 6 ≤ level → ancestor users r level = some a →
      (registerUser users telegramUserId username (some code) now).2[a]? = users[a]?) ∧
    (∀ j : ObjectId, j < users.length →
      (∀ level, 1 ≤ level → level ≤ 5 → ancestor users r level ≠ some j) →
      (registerUser users telegramUserId username (some code) now).2[j]? = users[j]?) := by
  obtain ⟨rdoc, hrdoc, hreg⟩ :=
    registerUser_ok users telegramUserId username code now r hcode hr hok
  have hlt : r < users.length := findOne_lt _ _ _ hr
  have hwfV : Acyclic (users ++ [User.create telegramUserId username (some r) now]) :=
    acyclic_append users hwf _ r hlt rfl
  have hlen : (processReferral (r, rdoc) users.length
      (users ++ [User.create telegramUserId username (some r) now])).length =
      users.length + 1 := by
    unfold processReferral
    simp only
    rw [cascade_length, List.length_set, List.length_append, List.length_singleton]
  have hanc1 : ancestor users r 1 = some r := by simp [ancestor, hlt]
  -- accounts other than the new one
  have hold : ∀ j : ObjectId, j < users.length →
      (registerUser users telegramUserId username (some code) now).2[j]? =
        (((users ++ [User.create telegramUserId username (some r) now]).set r
            (creditReferrer rdoc users.length))[j]?).map fun d =>
          addEarnings d
            (chainCredit (referrerOf (users ++ [User.create telegramUserId username (some r) now]))
              referralBonuses (some r) j) := by
    intro j hj
    rw [hreg, List.getElem?_set_ne (ne_of_gt hj)]
    exact processReferral_getElem users _ rdoc r j hrdoc
  -- accounts that the walk does not meet
  have hoff : ∀ j : ObjectId, j < users.length →
      (∀ level, 1 ≤ level → level ≤ 5 → ancestor users r level ≠ some j) →
      (registerUser users telegramUserId username (some code) now).2[j]? = users[j]? := by
    intro j hj hno
    have hjr : r ≠ j := by
      intro he
      subst he
      exact hno 1 (le_refl _) (by norm_num) hanc1
    rw [hold j hj, List.getElem?_set_ne hjr, List.getElem?_append]
    rw [chainCredit_off_chain _ referralBonuses r j
      (by rw [List.length_append]; exact Nat.lt_add_right _ hlt)
      (by
        intro level h1 h5
        rw [ancestor_append users hwf _ level r hlt]
        exact hno level h1 (by simpa [referralBonuses] using h5))]
    simp only [hj, if_true]
    cases users[j]? <;> simp [addEarnings_zero]
  refine ⟨?_, ?_, ?_, ?_, ?_, hoff⟩
  · rw [hreg, List.length_set, hlen]
  · rw [hreg, List.getElem?_set_self (by rw [hlen]; exact Nat.lt_succ_self _)]
    simp [addEarnings, User.create]
  · intro doc hdoc
    rw [hrdoc] at hdoc
    simp only [Option.some.injEq] at hdoc
    subst hdoc
    rw [hold r hlt, List.getElem?_set_self
      (by rw [List.length_append]; exact Nat.lt_add_right _ hlt)]
    rw [chainCredit_level _ hwfV 0 referralBonuses r r (20 / 100)
      (by rw [ancestor_append users hwf _ 1 r hlt]; exact hanc1) rfl]
    simp only [Option.map_some', creditReferrer, addEarnings, Option.some.injEq]
    norm_num
    constructor <;> ring
  · intro level a doc h2 h5 ha hdoc
    have har : a < r := ancestor_strict users hwf 1 level r r a hanc1 ha (by omega)
    have hal : a < users.length := lt_trans har hlt
    obtain ⟨b, hb, hbonus⟩ := referralBonus_level level h2 h5
    obtain ⟨m, rfl⟩ : ∃ m, level = m + 1 := ⟨level - 1, by omega⟩
    rw [hold a hal, List.getElem?_set_ne (ne_of_gt har), List.getElem?_append]
    rw [chainCredit_level _ hwfV m referralBonuses r a b
      (by rw [ancestor_append users hwf _ (m + 1) r hlt]; exact ha)
      (by simpa using hb)]
    simp only [hal, if_true, hdoc, Option.map_some', hbonus]
    rfl
  · intro level a h6 ha
    have hal : a < users.length := (ancestor_le users hwf level r a ha).2
    apply hoff a hal
    intro l h1 h5 hl
    exact absurd (ancestor_strict users hwf l level r a a hl ha (by omega)) (lt_irrefl _)

theorem sampleChain_acyclic : Acyclic sampleChain := by
  decide

/-- Dave registers with alice's code on the three-level chain: the balances
become 30000 (dave), 21000 (alice), 3000 (bob) and 1500 (carol). -/
theorem registerUser_cascade_witness :
    ((registerUser sampleChain "4" "dave" (some "alice") 0).2[3]?).map (fun u => u.balance) =
      some 30000 ∧
    ((registerUser sampleChain "4" "dave" (some "alice") 0).2[2]?).map (fun u => u.balance) =
      some 21000 ∧
    ((registerUser sampleChain "4" "dave" (some "alice") 0).2[1]?).map (fun u => u.balance) =
      some 3000 ∧
    ((registerUser sampleChain "4" "dave" (some "alice") 0).2[0]?).map (fun u => u.balance) =
      some 1500 := by
  obtain ⟨-, hnew, h1, hmid, -, -⟩ :=
    registerUser_cascade sampleChain "4" "dave" "alice" 0 2 sampleChain_acyclic (by decide)
      (by decide) (by decide)
  have hlen : sampleChain.length = 3 := rfl
  rw [hlen] at hnew
  refine ⟨?_, ?_, ?_, ?_⟩
  · rw [hnew]
    rfl
  · rw [h1 (User.create "3" "alice" (some 1) 0) rfl]
    norm_num [User.create]
  · rw [hmid 2 1 (User.create "2" "bob" (some 0) 0) (le_refl _) (by norm_num) (by decide) rfl]
    norm_num [User.create, levelBonus]
  · rw [hmid 3 0 (User.create "1" "carol" none 0) (by norm_num) (by norm_num) (by decide) rfl]
    norm_num [User.create, levelBonus]

theorem acyclic_congr (A B : List User)
    (h : ∀ j : Nat, (A[j]?).map (fun (d : User) => d.referredBy) =
      (B[j]?).map (fun (d : User) => d.referredBy))
    (hB : Acyclic B) : Acyclic A := by
  refine (acyclic_iff _).mpr ?_
  intro i doc j hi hj
  have hi2 := h i
  rw [hi] at hi2
  cases hb : B[i]? with
  | none => rw [hb] at hi2; simp at hi2
  | some d =>
    rw [hb] at hi2
    simp only [Option.map_some', Option.some.injEq] at hi2
    exact (acyclic_iff B).mp hB i d j hb (hi2 ▸ hj)

theorem acyclic_append_root (users : List User) (hwf : Acyclic users) (nu : User)
    (hnu : nu.referredBy = none) : Acyclic (users ++ [nu]) := by
  refine (acyclic_iff _).mpr ?_
  intro i doc j hi hj
  rw [List.getElem?_append] at hi
  split at hi
  · exact (acyclic_iff users).mp hwf i doc j hi hj
  · cases hk : i - users.length with
    | zero =>
      rw [hk] at hi
      simp only [List.getElem?_cons_zero, Option.some.injEq] at hi
      subst hi
      rw [hnu] at hj
      cases hj
    | succ k =>
      rw [hk] at hi
      simp at hi

theorem referredBy_set_self (V : List User) (n : ObjectId) (nu d : User)
    (hn : V[n]? = some nu) (hd : d.referredBy = nu.referredBy) (j : Nat) :
    ((V.set n d)[j]?).map (fun (x : User) => x.referredBy) =
      (V[j]?).map (fun (x : User) => x.referredBy) := by
  have hlt : n < V.length := (List.getElem?_eq_some_iff.mp hn).1
  rw [List.getElem?_set]
  by_cases hnj : n = j
  · subst hnj
    simp [hlt, hn, hd]
  · simp [hnj]

/-- Registrations keep the collection acyclic, so every collection built by
registrations meets the hypothesis of the cascade theorem. -/
theorem registerUser_acyclic (users : List User) (telegramUserId username : String)
    (referralCode : Option String) (now : Date) (hwf : Acyclic users) :
    Acyclic (registerUser users telegramUserId username referralCode now).2 := by
  unfold registerUser
  split
  · exact hwf
  · cases hlook : lookupReferrer users referralCode with
    | none => exact hwf
    | some referredBy =>
      simp only
      split
      · exact hwf
      · have hVn : ∀ nu : User, (users ++ [nu])[users.length]? = some nu := by
          intro nu
          rw [List.getElem?_append]
          simp
        cases referredBy with
        | none =>
          simp only [Option.map_none']
          apply acyclic_congr _ (users ++ [User.create telegramUserId username none now])
          · intro j
            exact referredBy_set_self _ users.length
              (User.create telegramUserId username none now)
              (addEarnings (User.create telegramUserId username none now) 30000)
              (hVn _) rfl j
          · exact acyclic_append_root users hwf _ rfl
        | some rd =>
          obtain ⟨r, rdoc⟩ := rd
          have hrdoc : users[r]? = some rdoc := by
            unfold lookupReferrer at hlook
            cases referralCode with
            | none => simp at hlook
            | some code =>
              simp only at hlook
              split at hlook
              · simp at hlook
              · cases hf : findById users (findOne (fun u => u.username == code) users) with
                | none => simp [hf] at hlook
                | some x =>
                  simp only [hf, Option.some.injEq] at hlook
                  subst hlook
                  exact (findById_eq_some _ _ _ _ hf).2
          have hlt : r < users.length := (List.getElem?_eq_some_iff.mp hrdoc).1
          simp only [Option.map_some']
          apply acyclic_congr _ (users ++ [User.create telegramUserId username (some r) now])
          · intro j
            have hlen : (processReferral (r, rdoc) users.length
                (users ++ [User.create telegramUserId username (some r) now])).length =
                users.length + 1 := by
              unfold processReferral
              simp only
              rw [cascade_length, List.length_set, List.length_append, List.length_singleton]
            rw [List.getElem?_set]
            by_cases hnj : users.length = j
            · subst hnj
              simp [hlen, addEarnings]
            · simp only [hnj, if_false]
              rw [processReferral_getElem users _ rdoc r j hrdoc]
              have hV : (users ++ [User.create telegramUserId username (some r) now])[r]? =
                  some rdoc := by
                rw [List.getElem?_append]
                simp [hlt, hrdoc]
              rw [← referredBy_set_self _ r rdoc (creditReferrer rdoc users.length) hV rfl j]
              cases ((users ++ [User.create telegramUserId username (some r) now]).set r
                (creditReferrer rdoc users.length))[j]? <;> simp [addEarnings]
          · exact acyclic_append users hwf _ r hlt rfl

theorem acyclic_nil : Acyclic [] := by
  decide

/-! ## Role expiry -/

theorem checkAndUpdateRole_expired (u : User) (now expiry : Date)
    (h : u.roleExpiryDate = some expiry) (hle : expiry ≤ now) :
    checkAndUpdateRole u now =
      { u with role := "User", roleExpiryDate := none, isEarning := false } := by
  unfold checkAndUpdateRole stopEarning
  simp only [h, hle, if_true]
  split
  · rfl
  · rename_i hne
    have hf : u.isEarning = false := by simpa using hne
    simp [hf]

theorem checkAndUpdateRole_no_expiry (u : User) (now : Date) (h : u.roleExpiryDate = none) :
    checkAndUpdateRole u now = u := by
  simp [checkAndUpdateRole, h]

theorem checkAndUpdateRole_pending (u : User) (now expiry : Date)
    (h : u.roleExpiryDate = some expiry) (hlt : now < expiry) :
    checkAndUpdateRole u now = u := by
  simp [checkAndUpdateRole, h, not_le.mpr hlt]

/-- C13. When `roleExpiryDate` is set and not later than `now`,
`checkAndUpdateRole()` sets `role = User`, `roleExpiryDate = null` and
`isEarning = false` and changes no other field (balance and totalEarnings among
them); when `roleExpiryDate` is null or later than `now` it leaves the account
as it was. -/
theorem checkAndUpdateRole_spec (u : User) (now : Date) :
    (∀ expiry : Date, u.roleExpiryDate = some expiry → expiry ≤ now →
      checkAndUpdateRole u now =
        { u with role := "User", roleExpiryDate := none, isEarning := false } ∧
      (checkAndUpdateRole u now).balance = u.balance ∧
      (checkAndUpdateRole u now).totalEarnings = u.totalEarnings) ∧
    (u.roleExpiryDate = none → checkAndUpdateRole u now = u) ∧
    (∀ expiry : Date, u.roleExpiryDate = some expiry → now < expiry →
      checkAndUpdateRole u now = u) := by
  refine ⟨?_, checkAndUpdateRole_no_expiry u now, checkAndUpdateRole_pending u now⟩
  intro expiry h hle
  rw [checkAndUpdateRole_expired u now expiry h hle]
  exact ⟨rfl, rfl, rfl⟩

/-- A `MonthlyBooster` in a session whose role expired at 1000, checked at
2000. -/
theorem checkAndUpdateRole_spec_witness :
    checkAndUpdateRole
      { User.create "1" "alice" none 0 with
        role := "MonthlyBooster", roleExpiryDate := some 1000, isEarning := true,
        lastStartTime := some 0 } 2000 =
      { User.create "1" "alice" none 0 with lastStartTime := some 0 } :=
  ((checkAndUpdateRole_spec
    { User.create "1" "alice" none 0 with
      role := "MonthlyBooster", roleExpiryDate := some 1000, isEarning := true,
      lastStartTime := some 0 } 2000).1 1000 rfl (by norm_num)).1

/-- On the document in memory: for an account, earning or not, whose
`roleExpiryDate` is set and not later than `now`, `checkAndUpdateRole()` followed
by `claim()` returns 0, whatever the start time and the role: balance and
totalEarnings are unchanged and the document in memory has `isEarning = false`
(and role `User`, no expiry date). -/
theorem claim_after_expiry (u : User) (now expiry : Date)
    (h : u.roleExpiryDate = some expiry) (hle : expiry ≤ now) :
    (claim (checkAndUpdateRole u now) now).1 = 0 ∧
    (claim (checkAndUpdateRole u now) now).2.balance = u.balance ∧
    (claim (checkAndUpdateRole u now) now).2.totalEarnings = u.totalEarnings ∧
    (claim (checkAndUpdateRole u now) now).2.isEarning = false ∧
    (claim (checkAndUpdateRole u now) now).2 =
      { u with role := "User", roleExpiryDate := none, isEarning := false } := by
  have hc := checkAndUpdateRole_expired u now expiry h hle
  have hz : calculateEarnings (checkAndUpdateRole u now) now = 0 :=
    calculateEarnings_not_earning _ now (by rw [hc])
  have hcl := claim_nonpos (checkAndUpdateRole u now) now (le_of_eq hz)
  rw [hcl, hc]
  exact ⟨rfl, rfl, rfl, rfl, rfl⟩

/-- A `LifeTime6xBooster` given 30 days at time 0, in a session since day 1,
claiming one hour after the expiry. -/
theorem claim_after_expiry_witness :
    (claim (checkAndUpdateRole
      { User.create "1" "alice" none 0 with
        role := "LifeTime6xBooster", roleExpiryDate := some 2592000000, isEarning := true,
        lastStartTime := some 86400000 } 2595600000) 2595600000).1 = 0 :=
  (claim_after_expiry
    { User.create "1" "alice" none 0 with
      role := "LifeTime6xBooster", roleExpiryDate := some 2592000000, isEarning := true,
      lastStartTime := some 86400000 } 2595600000 2592000000 rfl (by norm_num)).1

/-- The paying branch of the controller: a positive claimed amount is answered
with 200, the amount, the new balance and the new `isEarning` flag. -/
theorem claimPoints_paid (users : List User) (telegramUserId : String) (now : Date)
    (uid : ObjectId) (user : User)
    (hfind : findById users (findOne (fun u => u.telegramUserId == telegramUserId) users) =
      some (uid, user))
    (hpos : 0 < (claim (checkAndUpdateRole user now) now).1) :
    (claimPoints users telegramUserId now).1 =
      ⟨200, "Points claimed successfully", some (claim (checkAndUpdateRole user now) now).1,
        some (claim (checkAndUpdateRole user now) now).2.balance,
        some (claim (checkAndUpdateRole user now) now).2.isEarning⟩ := by
  simp only [claimPoints, hfind]
  rw [if_pos hpos]

/-- C15. The claim-points flow on the stored `expiredBooster`, one hour after
the expiry date: the answer is 400 and nothing is credited, but nothing is saved
either (`save()` is in the other branch), so the account is left as it was, with
`isEarning = true`, its start time, its role and its expiry date, where the
comment of line 178 says 'Stop earning when role changes to User'. The session is
not forfeited: once the role is renewed through `setUserRole`, the next claim
pays the 21600 points of the two hours since the start. -/
theorem claimPoints_expired_keeps_session :
    (claimPoints [expiredBooster] "1" 2595600000).1 =
      ⟨400, "No points available to claim", none, none, none⟩ ∧
    (claimPoints [expiredBooster] "1" 2595600000).2 = [expiredBooster] ∧
    expiredBooster.isEarning = true ∧
    (setUserRole (claimPoints [expiredBooster] "1" 2595600000).2 "1"
        (some "MonthlyBooster") (some 30) 2595600000).2 =
      [renewedBooster] ∧
    (claimPoints
        (setUserRole (claimPoints [expiredBooster] "1" 2595600000).2 "1"
          (some "MonthlyBooster") (some 30) 2595600000).2 "1" 2595600000).1 =
      ⟨200, "Points claimed successfully", some 21600, some 21600, some false⟩ := by
  have hfind : ∀ u : User, u.telegramUserId = "1" →
      findById [u] (findOne (fun v => v.telegramUserId == "1") [u]) = some (0, u) := by
    intro u hu
    simp [findById, findOne, List.findIdx_cons, hu]
  have h1 : claimPoints [expiredBooster] "1" 2595600000 =
      (⟨400, "No points available to claim", none, none, none⟩, [expiredBooster]) := by
    have hc := checkAndUpdateRole_expired expiredBooster 2595600000 2592000000 rfl
      (by norm_num)
    have hz : calculateEarnings (checkAndUpdateRole expiredBooster 2595600000) 2595600000 = 0 :=
      calculateEarnings_not_earning _ _ (by rw [hc])
    have hcl := claim_nonpos (checkAndUpdateRole expiredBooster 2595600000) 2595600000
      (le_of_eq hz)
    simp only [claimPoints, hfind expiredBooster rfl, hcl]
    simp
  have h2 : setUserRole [expiredBooster] "1" (some "MonthlyBooster") (some 30) 2595600000 =
      ((200, "User role updated successfully"), [renewedBooster]) := by
    have hs : setRole expiredBooster "MonthlyBooster" (some 30) 2595600000 = renewedBooster := by
      norm_num [setRole, dateOfNumber, renewedBooster, expiredBooster, User.create]
    simp only [setUserRole, hfind expiredBooster rfl, hs]
    simp
  have h3 : (claimPoints [renewedBooster] "1" 2595600000).1 =
      ⟨200, "Points claimed successfully", some 21600, some 21600, some false⟩ := by
    have hc : checkAndUpdateRole renewedBooster 2595600000 = renewedBooster :=
      checkAndUpdateRole_pending _ _ 5187600000 rfl (by norm_num)
    have hz : calculateEarnings renewedBooster 2595600000 = 21600 := by
      rw [calculateEarnings_booster _ 2595600000 2588400000 rfl rfl (Or.inl rfl),
        baseEarnings_whole_hours 2588400000 2595600000 2 (by norm_num) (by norm_num)]
      norm_num
    have hcl : claim renewedBooster 2595600000 =
        (21600, { renewedBooster with
          balance := 21600, totalEarnings := 21600, lastClaimTime := some 2595600000,
          isEarning := false, lastStartTime := none }) := by
      rw [claim_pos renewedBooster 2595600000 (by rw [hz]; norm_num), hz]
      norm_num [renewedBooster, expiredBooster, User.create]
    rw [claimPoints_paid [renewedBooster] "1" 2595600000 0 renewedBooster
      (hfind renewedBooster rfl) (by rw [hc, hcl]; norm_num), hc, hcl]
  rw [h1, h2, h3]
  exact ⟨rfl, rfl, rfl, rfl, rfl⟩

/-- In the controller the flow answers 400 and saves nothing for every stored
account whose role has expired: `save()` is called in the other branch only, so
the stored document is as before (it keeps its role, its expiry date and its
`isEarning` flag) at every clock value from the expiry date on. -/
theorem claimPoints_expired (users : List User) (telegramUserId : String) (now expiry : Date)
    (uid : ObjectId) (user : User)
    (hfind : findById users (findOne (fun u => u.telegramUserId == telegramUserId) users) =
      some (uid, user))
    (h : user.roleExpiryDate = some expiry) (hle : expiry ≤ now) :
    (claimPoints users telegramUserId now).1.status = 400 ∧
    (claimPoints users telegramUserId now).2 = users := by
  have hc := checkAndUpdateRole_expired user now expiry h hle
  have hz : calculateEarnings (checkAndUpdateRole user now) now = 0 :=
    calculateEarnings_not_earning _ now (by rw [hc])
  have hcl := claim_nonpos (checkAndUpdateRole user now) now (le_of_eq hz)
  simp only [claimPoints, hfind, hcl]
  simp

/-- What `setRole` does to the role and the expiry date. -/
theorem setRole_role_expiry (u : User) (role : String) (d : Option ℚ) (now : Date) :
    (setRole u role d now).role = role ∧
    (durationGiven d = true → (setRole u role d now).roleExpiryDate ≠ none) ∧
    (durationGiven d = false → includesLifeTime role = true →
      (setRole u role d now).roleExpiryDate = none) ∧
    (durationGiven d = false → includesLifeTime role = false →
      (setRole u role d now).roleExpiryDate = u.roleExpiryDate) := by
  unfold setRole durationGiven
  cases d with
  | none =>
    simp only
    split
    · rename_i hl
      simp [hl]
    · rename_i hl
      simp [hl]
  | some x =>
    simp only
    split
    · rename_i hx
      simp [hx]
    · rename_i hx
      have hx0 : x = 0 := by simpa using hx
      split
      · rename_i hl
        simp [hx0, hl]
      · rename_i hl
        simp [hx0, hl]

/-- The operations other than `setRole` and `checkAndUpdateRole` leave the role
and its expiry date alone. -/
theorem step_role_frame (a : Account) (op : Op)
    (h1 : ∀ role d now, op ≠ .setRole role d now) (h2 : ∀ now, op ≠ .checkAndUpdateRole now) :
    (step a op).user.role = a.user.role ∧
    (step a op).user.roleExpiryDate = a.user.roleExpiryDate := by
  cases op with
  | startEarning now =>
    simp only [step, startEarning]
    split <;> exact ⟨rfl, rfl⟩
  | stopEarning =>
    simp only [step, stopEarning]
    split <;> exact ⟨rfl, rfl⟩
  | claim now =>
    simp only [step]
    rcases lt_or_le 0 (calculateEarnings a.user now) with he | he
    · rw [claim_pos a.user now he]
      exact ⟨rfl, rfl⟩
    · rw [claim_nonpos a.user now he]
      exact ⟨rfl, rfl⟩
  | addEarnings amount => exact ⟨rfl, rfl⟩
  | setRole role d now => exact absurd rfl (h1 role d now)
  | checkAndUpdateRole now => exact absurd rfl (h2 now)
  | stake amount period now =>
    simp only [step]
    cases hst : stake a.self a.user a.stakes amount period now with
    | error e => exact ⟨rfl, rfl⟩
    | ok r =>
      obtain ⟨id, st, u1, s1⟩ := r
      obtain ⟨hu, -, -⟩ := stake_ok _ _ _ _ _ _ _ _ _ _ hst
      subst hu
      exact ⟨rfl, rfl⟩
  | claimStake sid now =>
    simp only [step]
    cases hst : claimStake a.user a.stakes sid now with
    | error e => exact ⟨rfl, rfl⟩
    | ok r =>
      obtain ⟨amt, u1, s1⟩ := r
      obtain ⟨st, -, -, -, -, -, hu, -⟩ := claimStake_ok _ _ _ _ _ _ _ hst
      subst hu
      exact ⟨rfl, rfl⟩
  | playGame score now => exact ⟨rfl, rfl⟩
  | completeTask taskId points =>
    simp only [step]
    cases hc : completeTask a.user taskId points with
    | none => exact ⟨rfl, rfl⟩
    | some u1 =>
      unfold completeTask at hc
      split at hc
      · simp at hc
      · simp only [Option.some.injEq] at hc
        subst hc
        exact ⟨rfl, rfl⟩
  | referral newUser => exact ⟨rfl, rfl⟩

/-- A `SetRoleOk` call keeps expiry dates on time-limited roles. -/
theorem setRole_keeps (u : User) (role : String) (d : Option ℚ) (now : Date)
    (hok : SetRoleOk u role d) :
    (setRole u role d now).roleExpiryDate ≠ none → TimeLimited (setRole u role d now).role := by
  obtain ⟨hr, -, h2, h3⟩ := setRole_role_expiry u role d now
  intro hne
  rw [hr]
  unfold SetRoleOk at hok
  cases hd : durationGiven d with
  | true =>
    simpa [hd] using hok
  | false =>
    simp only [hd, Bool.false_eq_true, if_false] at hok
    cases hl : includesLifeTime role with
    | true => exact absurd (h2 hd hl) hne
    | false =>
      rcases hok with hok | hok | hok
      · rw [hl] at hok
        cases hok
      · exact hok
      · rw [h3 hd hl] at hne
        exact absurd hok hne

theorem checkAndUpdateRole_keeps (u : User) (now : Date)
    (hinv : u.roleExpiryDate ≠ none → TimeLimited u.role) :
    (checkAndUpdateRole u now).roleExpiryDate ≠ none →
      TimeLimited (checkAndUpdateRole u now).role := by
  cases h : u.roleExpiryDate with
  | none =>
    rw [checkAndUpdateRole_no_expiry u now h]
    exact hinv
  | some expiry =>
    rcases le_or_lt expiry now with hle | hlt
    · rw [checkAndUpdateRole_expired u now expiry h hle]
      intro hne
      exact absurd rfl hne
    · rw [checkAndUpdateRole_pending u now expiry h hlt]
      exact hinv

theorem run_keeps_expiry (ops : List Op) (a : Account)
    (hinv : a.user.roleExpiryDate ≠ none → TimeLimited a.user.role)
    (hok : RoleCallsOk a ops) :
    (run a ops).user.roleExpiryDate ≠ none → TimeLimited (run a ops).user.role := by
  induction ops generalizing a with
  | nil => exact hinv
  | cons op ops ih =>
    show (run (step a op) ops).user.roleExpiryDate ≠ none →
      TimeLimited (run (step a op) ops).user.role
    cases op with
    | setRole role d now =>
      simp only [RoleCallsOk] at hok
      exact ih _ (setRole_keeps a.user role d now hok.1) hok.2
    | checkAndUpdateRole now =>
      simp only [RoleCallsOk] at hok
      exact ih _ (checkAndUpdateRole_keeps a.user now hinv) hok
    | startEarning now =>
      simp only [RoleCallsOk] at hok
      obtain ⟨h1, h2⟩ := step_role_frame a (.startEarning now)
        (fun _ _ _ h => Op.noConfusion h) (fun _ h => Op.noConfusion h)
      exact ih _ (by rw [h1, h2]; exact hinv) hok
    | stopEarning =>
      simp only [RoleCallsOk] at hok
      obtain ⟨h1, h2⟩ := step_role_frame a .stopEarning
        (fun _ _ _ h => Op.noConfusion h) (fun _ h => Op.noConfusion h)
      exact ih _ (by rw [h1, h2]; exact hinv) hok
    | claim now =>
      simp only [RoleCallsOk] at hok
      obtain ⟨h1, h2⟩ := step_role_frame a (.claim now)
        (fun _ _ _ h => Op.noConfusion h) (fun _ h => Op.noConfusion h)
      exact ih _ (by rw [h1, h2]; exact hinv) hok
    | addEarnings amount =>
      simp only [RoleCallsOk] at hok
      obtain ⟨h1, h2⟩ := step_role_frame a (.addEarnings amount)
        (fun _ _ _ h => Op.noConfusion h) (fun _ h => Op.noConfusion h)
      exact ih _ (by rw [h1, h2]; exact hinv) hok
    | stake amount period now =>
      simp only [RoleCallsOk] at hok
      obtain ⟨h1, h2⟩ := step_role_frame a (.stake amount period now)
        (fun _ _ _ h => Op.noConfusion h) (fun _ h => Op.noConfusion h)
      exact ih _ (by rw [h1, h2]; exact hinv) hok
    | claimStake sid now =>
      simp only [RoleCallsOk] at hok
      obtain ⟨h1, h2⟩ := step_role_frame a (.claimStake sid now)
        (fun _ _ _ h => Op.noConfusion h) (fun _ h => Op.noConfusion h)
      exact ih _ (by rw [h1, h2]; exact hinv) hok
    | playGame score now =>
      simp only [RoleCallsOk] at hok
      obtain ⟨h1, h2⟩ := step_role_frame a (.playGame score now)
        (fun _ _ _ h => Op.noConfusion h) (fun _ h => Op.noConfusion h)
      exact ih _ (by rw [h1, h2]; exact hinv) hok
    | completeTask taskId points =>
      simp only [RoleCallsOk] at hok
      obtain ⟨h1, h2⟩ := step_role_frame a (.completeTask taskId points)
        (fun _ _ _ h => Op.noConfusion h) (fun _ h => Op.noConfusion h)
      exact ih _ (by rw [h1, h2]; exact hinv) hok
    | referral newUser =>
      simp only [RoleCallsOk] at hok
      obtain ⟨h1, h2⟩ := step_role_frame a (.referral newUser)
        (fun _ _ _ h => Op.noConfusion h) (fun _ h => Op.noConfusion h)
      exact ih _ (by rw [h1, h2]; exact hinv) hok

/-- C12 (as stated, refuted). From a new account, `setRole('User', 30)` leaves
the role `User` with an expiry date; so does `setRole('User')` after
`setRole('MonthlyBooster', 30)`; and `setRole('LifeTimeBooster', 30)` gives a
lifetime role an expiry date. -/
theorem expiry_on_other_roles :
    (run (Account.new 0 "1" "alice" none 0 []) [.setRole "User" (some 30) 0]).user.role =
      "User" ∧
    (run (Account.new 0 "1" "alice" none 0 [])
      [.setRole "User" (some 30) 0]).user.roleExpiryDate = some 2592000000 ∧
    (run (Account.new 0 "1" "alice" none 0 [])
      [.setRole "MonthlyBooster" (some 30) 0, .setRole "User" none 1]).user.role = "User" ∧
    (run (Account.new 0 "1" "alice" none 0 [])
      [.setRole "MonthlyBooster" (some 30) 0, .setRole "User" none 1]).user.roleExpiryDate =
      some 2592000000 ∧
    (run (Account.new 0 "1" "alice" none 0 [])
      [.setRole "LifeTimeBooster" (some 30) 0]).user.role = "LifeTimeBooster" ∧
    (run (Account.new 0 "1" "alice" none 0 [])
      [.setRole "LifeTimeBooster" (some 30) 0]).user.roleExpiryDate = some 2592000000 := by
  have hu : includesLifeTime "User" = false := by decide
  refine ⟨?_, ?_, ?_, ?_, ?_, ?_⟩ <;>
    norm_num [run, step, Account.new, User.create, setRole, dateOfNumber, hu]

/-- C12 (amended). From a newly created account, through any sequence of
operations in which every `setRole` call gives a duration only with
`MonthlyBooster` or `Monthly3xBooster` and, without a duration, sets a `LifeTime`
role, a time-limited role, or any role while no expiry date is set:
`roleExpiryDate` is non-null only when the role is `MonthlyBooster` or
`Monthly3xBooster`, and it is null whenever the role is `User`,
`LifeTimeBooster` or `LifeTime6xBooster`. -/
theorem expiry_only_time_limited (self : ObjectId) (telegramUserId username : String)
    (referredBy : Option ObjectId) (created : Date) (stakes : List Stake) (ops : List Op)
    (hok : RoleCallsOk (Account.new self telegramUserId username referredBy created stakes)
      ops) :
    ((run (Account.new self telegramUserId username referredBy created stakes)
        ops).user.roleExpiryDate ≠ none →
      TimeLimited (run (Account.new self telegramUserId username referredBy created stakes)
        ops).user.role) ∧
    ((run (Account.new self telegramUserId username referredBy created stakes)
          ops).user.role = "User" ∨
        (run (Account.new self telegramUserId username referredBy created stakes)
          ops).user.role = "LifeTimeBooster" ∨
        (run (Account.new self telegramUserId username referredBy created stakes)
          ops).user.role = "LifeTime6xBooster" →
      (run (Account.new self telegramUserId username referredBy created stakes)
        ops).user.roleExpiryDate = none) := by
  have hmain := run_keeps_expiry ops
    (Account.new self telegramUserId username referredBy created stakes)
    (fun hne => absurd rfl hne) hok
  refine ⟨hmain, ?_⟩
  intro hrole
  by_contra hne
  have htl := hmain hne
  unfold TimeLimited at htl
  rcases hrole with hr | hr | hr <;> rw [hr] at htl <;> revert htl <;> decide

/-- A new account made `MonthlyBooster` for 30 days, then `LifeTimeBooster`
without duration, then checked: the role is `LifeTimeBooster` and no expiry date
is set. -/
theorem expiry_only_time_limited_witness :
    (run (Account.new 0 "1" "alice" none 0 [])
      [.setRole "MonthlyBooster" (some 30) 0, .setRole "LifeTimeBooster" none 5,
       .checkAndUpdateRole 9]).user.role = "LifeTimeBooster" ∧
    (run (Account.new 0 "1" "alice" none 0 [])
      [.setRole "MonthlyBooster" (some 30) 0, .setRole "LifeTimeBooster" none 5,
       .checkAndUpdateRole 9]).user.roleExpiryDate = none := by
  have hl : includesLifeTime "LifeTimeBooster" = true := by decide
  have hm : includesLifeTime "MonthlyBooster" = false := by decide
  have hrole : (run (Account.new 0 "1" "alice" none 0 [])
      [.setRole "MonthlyBooster" (some 30) 0, .setRole "LifeTimeBooster" none 5,
       .checkAndUpdateRole 9]).user.role = "LifeTimeBooster" := by
    norm_num [run, step, Account.new, User.create, setRole, checkAndUpdateRole, dateOfNumber,
      hl, hm]
  refine ⟨hrole, ?_⟩
  exact (expiry_only_time_limited 0 "1" "alice" none 0 []
    [.setRole "MonthlyBooster" (some 30) 0, .setRole "LifeTimeBooster" none 5,
     .checkAndUpdateRole 9]
    (by
      simp only [RoleCallsOk, SetRoleOk, durationGiven, TimeLimited, hl, step, setRole]
      norm_num)).2 (Or.inr (Or.inl hrole))

/-! ## Leaderboard -/

/-- The `forEach` loop builds the buckets of the specification. -/
theorem classifyFrom_eq (l : List User) (k : Nat) (board : Leaderboard) :
    classifyFrom board k l =
      { promoters := board.promoters ++ (specLeaderboard l k).promoters
        influencers := board.influencers ++ (specLeaderboard l k).influencers
        ambassadors := board.ambassadors ++ (specLeaderboard l k).ambassadors } := by
  induction l generalizing k board with
  | nil => simp [classifyFrom, specLeaderboard]
  | cons u rest ih =>
    simp only [classifyFrom]
    rw [ih]
    unfold classifyUser specLeaderboard
    simp only [List.enumFrom_cons, List.filter_cons]
    by_cases h1 : k + 1 ≤ 5000
    · have a1 : ¬ 5000 < k + 1 := by omega
      have a2 : ¬ 20000 < k + 1 := by omega
      simp [h1, a1, a2, entryOf]
    · by_cases h2 : k + 1 ≤ 20000
      · have a1 : 5000 < k + 1 := by omega
        have a2 : k ≤ 19999 := by omega
        have a3 : ¬ 20000 < k + 1 := by omega
        have a4 : ¬ k ≤ 4999 := by omega
        simp [h1, h2, a1, a2, a3, a4, entryOf]
      · by_cases h3 : k + 1 ≤ 50000
        · have a1 : 5000 < k + 1 := by omega
          have a2 : ¬ k ≤ 19999 := by omega
          have a3 : 20000 < k + 1 := by omega
          have a4 : ¬ k ≤ 4999 := by omega
          have a5 : k ≤ 49999 := by omega
          simp [h1, h2, h3, a1, a2, a3, a4, a5, entryOf]
        · have a1 : 5000 < k + 1 := by omega
          have a2 : ¬ k ≤ 19999 := by omega
          have a3 : 20000 < k + 1 := by omega
          have a4 : ¬ k ≤ 4999 := by omega
          have a5 : ¬ k ≤ 49999 := by omega
          simp [h1, h2, h3, a1, a2, a3, a4, a5]

theorem getLeaderboard_eq (users : List User) (role : Option String) :
    getLeaderboard users role = specLeaderboard (sortByReferrals (findByRole users role)) 0 := by
  unfold getLeaderboard
  rw [classifyFrom_eq]
  simp

theorem mem_promoters (users : List User) (role : Option String) (e : LeaderboardEntry) :
    e ∈ (getLeaderboard users role).promoters ↔
      ∃ i u, (sortByReferrals (findByRole users role))[i]? = some u ∧ i + 1 ≤ 5000 ∧
        e = entryOf "Promoter" (i, u) := by
  rw [getLeaderboard_eq]
  simp only [specLeaderboard, List.mem_map, List.mem_filter, decide_eq_true_eq, Prod.exists]
  constructor
  · rintro ⟨i, u, ⟨hm, hr⟩, he⟩
    exact ⟨i, u, List.mk_mem_enum_iff_getElem?.mp hm, hr, he.symm⟩
  · rintro ⟨i, u, hm, hr, he⟩
    exact ⟨i, u, ⟨List.mk_mem_enum_iff_getElem?.mpr hm, hr⟩, he.symm⟩

theorem mem_influencers (users : List User) (role : Option String) (e : LeaderboardEntry) :
    e ∈ (getLeaderboard users role).influencers ↔
      ∃ i u, (sortByReferrals (findByRole users role))[i]? = some u ∧
        (5000 < i + 1 ∧ i + 1 ≤ 20000) ∧ e = entryOf "Influencer" (i, u) := by
  rw [getLeaderboard_eq]
  simp only [specLeaderboard, List.mem_map, List.mem_filter, decide_eq_true_eq, Prod.exists]
  constructor
  · rintro ⟨i, u, ⟨hm, hr⟩, he⟩
    exact ⟨i, u, List.mk_mem_enum_iff_getElem?.mp hm, hr, he.symm⟩
  · rintro ⟨i, u, hm, hr, he⟩
    exact ⟨i, u, ⟨List.mk_mem_enum_iff_getElem?.mpr hm, hr⟩, he.symm⟩

theorem mem_ambassadors (users : List User) (role : Option String) (e : LeaderboardEntry) :
    e ∈ (getLeaderboard users role).ambassadors ↔
      ∃ i u, (sortByReferrals (findByRole users role))[i]? = some u ∧
        (20000 < i + 1 ∧ i + 1 ≤ 50000) ∧ e = entryOf "Ambassador" (i, u) := by
  rw [getLeaderboard_eq]
  simp only [specLeaderboard, List.mem_map, List.mem_filter, decide_eq_true_eq, Prod.exists]
  constructor
  · rintro ⟨i, u, ⟨hm, hr⟩, he⟩
    exact ⟨i, u, List.mk_mem_enum_iff_getElem?.mp hm, hr, he.symm⟩
  · rintro ⟨i, u, hm, hr, he⟩
    exact ⟨i, u, ⟨List.mk_mem_enum_iff_getElem?.mpr hm, hr⟩, he.symm⟩

/-- The sort keeps the accounts of each referral count in their input order. -/
theorem sortByReferrals_stable (users : List User) (c : Nat) :
    (sortByReferrals users).filter (fun u => u.referrals.length == c) =
      users.filter (fun u => u.referrals.length == c) := by
  have hpw : (users.filter (fun u => u.referrals.length == c)).Pairwise referralOrder := by
    apply List.pairwise_of_forall_mem_list
    intro a ha b hb
    have h1 := (List.mem_filter.mp ha).2
    have h2 := (List.mem_filter.mp hb).2
    simp only [beq_iff_eq] at h1 h2
    unfold referralOrder
    rw [h1, h2]
  have hsub : List.Sublist (users.filter (fun u => u.referrals.length == c))
      (sortByReferrals users) :=
    List.sublist_insertionSort hpw (List.filter_sublist users)
  have hsub2 := hsub.filter (fun u => u.referrals.length == c)
  rw [List.filter_filter] at hsub2
  simp only [Bool.and_self] at hsub2
  have hperm : ((sortByReferrals users).filter (fun u => u.referrals.length == c)).Perm
      (users.filter (fun u => u.referrals.length == c)) :=
    (List.perm_insertionSort referralOrder users).filter _
  exact (hsub2.eq_of_length hperm.length_eq.symm).symm

/-- Every rank stands at most once in the three buckets together. -/
theorem ranks_nodup (users : List User) (role : Option String) :
    (((getLeaderboard users role).promoters ++ (getLeaderboard users role).influencers ++
      (getLeaderboard users role).ambassadors).map fun e => e.rank).Nodup := by
  rw [getLeaderboard_eq]
  generalize sortByReferrals (findByRole users role) = sorted
  have hE : ((sorted.enumFrom 0).map fun p => p.1 + 1).Nodup := by
    have : ((sorted.enumFrom 0).map fun p => p.1 + 1) =
        ((sorted.enumFrom 0).map Prod.fst).map Nat.succ := by
      rw [List.map_map]
      rfl
    rw [this, List.enumFrom_map_fst]
    exact (List.nodup_range' 0 sorted.length).map Nat.succ_injective
  have hinj := List.inj_on_of_nodup_map hE
  have hsubl : ∀ (q : Nat × User → Bool) (role : String),
      ((((sorted.enumFrom 0).filter q).map (entryOf role)).map fun e => e.rank) =
        ((sorted.enumFrom 0).filter q).map fun p => p.1 + 1 := by
    intro q role
    rw [List.map_map]
    rfl
  have hnd : ∀ (q : Nat × User → Bool),
      (((sorted.enumFrom 0).filter q).map fun p => p.1 + 1).Nodup := fun q =>
    List.Nodup.sublist ((List.filter_sublist _).map _) hE
  simp only [specLeaderboard, List.map_append, hsubl]
  rw [List.nodup_append, List.nodup_append]
  refine ⟨⟨hnd _, hnd _, ?_⟩, hnd _, ?_⟩
  · intro x hx hy
    simp only [List.mem_map, List.mem_filter, decide_eq_true_eq] at hx hy
    obtain ⟨p, ⟨-, hp⟩, rfl⟩ := hx
    obtain ⟨q, ⟨-, hq⟩, hqe⟩ := hy
    omega
  · intro x hx hy
    simp only [List.mem_append, List.mem_map, List.mem_filter, decide_eq_true_eq] at hx hy
    obtain ⟨q, ⟨-, hq⟩, hqe⟩ := hy
    rcases hx with ⟨p, ⟨-, hp⟩, rfl⟩ | ⟨p, ⟨-, hp⟩, rfl⟩ <;> omega

/-- C11. The leaderboard sorts the fetched accounts by referral count,
descending, keeping equal counts in their input order; the rank is the 1-based
position; an entry is in promoters iff its rank is at most 5000, in influencers
iff it is 5001 to 20000, in ambassadors iff it is 20001 to 50000, and an account
is in no bucket iff its rank is above 50000; no rank stands twice in the buckets;
the result is a function of the fetched list alone. For counts [10, 10, 5] the
ranks are 1, 2, 3, all Promoter. -/
theorem getLeaderboard_spec (users : List User) (role : Option String) :
    (sortByReferrals (findByRole users role)).Perm (findByRole users role) ∧
    (sortByReferrals (findByRole users role)).Pairwise
      (fun a b => b.referrals.length ≤ a.referrals.length) ∧
    (∀ c : Nat,
      (sortByReferrals (findByRole users role)).filter (fun u => u.referrals.length == c) =
        (findByRole users role).filter (fun u => u.referrals.length == c)) ∧
    (∀ e, e ∈ (getLeaderboard users role).promoters ↔
      ∃ i u, (sortByReferrals (findByRole users role))[i]? = some u ∧ i + 1 ≤ 5000 ∧
        e = ⟨u.username, "Promoter", u.referrals.length, i + 1⟩) ∧
    (∀ e, e ∈ (getLeaderboard users role).influencers ↔
      ∃ i u, (sortByReferrals (findByRole users role))[i]? = some u ∧
        (5001 ≤ i + 1 ∧ i + 1 ≤ 20000) ∧
        e = ⟨u.username, "Influencer", u.referrals.length, i + 1⟩) ∧
    (∀ e, e ∈ (getLeaderboard users role).ambassadors ↔
      ∃ i u, (sortByReferrals (findByRole users role))[i]? = some u ∧
        (20001 ≤ i + 1 ∧ i + 1 ≤ 50000) ∧
        e = ⟨u.username, "Ambassador", u.referrals.length, i + 1⟩) ∧
    (∀ i u, (sortByReferrals (findByRole users role))[i]? = some u →
      (50000 < i + 1 ↔
        ∀ e, e ∈ (getLeaderboard users role).promoters ++
            (getLeaderboard users role).influencers ++
            (getLeaderboard users role).ambassadors → e.rank ≠ i + 1)) ∧
    (((getLeaderboard users role).promoters ++ (getLeaderboard users role).influencers ++
      (getLeaderboard users role).ambassadors).map fun e => e.rank).Nodup ∧
    getLeaderboard sampleBoard none =
      ⟨[⟨"ann", "Promoter", 10, 1⟩, ⟨"ben", "Promoter", 10, 2⟩, ⟨"cat", "Promoter", 5, 3⟩],
        [], []⟩ := by
  refine ⟨List.perm_insertionSort referralOrder _, List.sorted_insertionSort referralOrder _,
    sortByReferrals_stable _, mem_promoters users role, mem_influencers users role,
    mem_ambassadors users role, ?_, ranks_nodup users role, rfl⟩
  intro i u hu
  constructor
  · intro hi e he
    simp only [List.mem_append] at he
    rcases he with (he | he) | he
    · obtain ⟨j, v, -, hj, rfl⟩ := (mem_promoters users role e).mp he
      simp only [entryOf]
      omega
    · obtain ⟨j, v, -, hj, rfl⟩ := (mem_influencers users role e).mp he
      simp only [entryOf]
      omega
    · obtain ⟨j, v, -, hj, rfl⟩ := (mem_ambassadors users role e).mp he
      simp only [entryOf]
      omega
  · intro hno
    by_contra hle
    have hle' : i + 1 ≤ 50000 := not_lt.mp hle
    by_cases h1 : i + 1 ≤ 5000
    · exact hno (entryOf "Promoter" (i, u))
        (List.mem_append_left _ (List.mem_append_left _
          ((mem_promoters users role _).mpr ⟨i, u, hu, h1, rfl⟩))) rfl
    · by_cases h2 : i + 1 ≤ 20000
      · exact hno (entryOf "Influencer" (i, u))
          (List.mem_append_left _ (List.mem_append_right _
            ((mem_influencers users role _).mpr ⟨i, u, hu, ⟨by omega, h2⟩, rfl⟩))) rfl
      · exact hno (entryOf "Ambassador" (i, u))
          (List.mem_append_right _
            ((mem_ambassadors users role _).mpr ⟨i, u, hu, ⟨by omega, hle'⟩, rfl⟩)) rfl

/-- On the sample of counts [10, 10, 5], `cat` (5 referrals) has rank 3 and is a
Promoter. -/
theorem getLeaderboard_spec_witness :
    (⟨"cat", "Promoter", 5, 3⟩ : LeaderboardEntry) ∈
      (getLeaderboard sampleBoard none).promoters :=
  ((getLeaderboard_spec sampleBoard none).2.2.2.1 ⟨"cat", "Promoter", 5, 3⟩).mpr
    ⟨2, { User.create "3" "cat" none 0 with referrals := List.range 5 }, rfl, by norm_num, rfl⟩

theorem classifyRank_promoter (rank : Nat) : classifyRank rank = "Promoter" ↔ rank ≤ 5000 := by
  unfold classifyRank
  split_ifs <;> simp_all

theorem classifyRank_influencer (rank : Nat) :
    classifyRank rank = "Influencer" ↔ 5000 < rank ∧ rank ≤ 20000 := by
  unfold classifyRank
  split_ifs <;> simp_all

theorem classifyRank_ambassador (rank : Nat) :
    classifyRank rank = "Ambassador" ↔ 20000 < rank ∧ rank ≤ 50000 := by
  unfold classifyRank
  split_ifs <;> simp_all
  omega

theorem classifyRank_user (rank : Nat) : classifyRank rank = "User" ↔ 50000 < rank := by
  unfold classifyRank
  split_ifs <;> simp_all <;> omega

/-- The loop of `getUserRank` finds a position that holds the username. -/
theorem findRank_of_mem (l : List User) (k : Nat) (username : String)
    (h : ∃ u ∈ l, u.username = username) :
    ∃ i u, l[i]? = some u ∧ u.username = username ∧ findRank l k username = k + i + 1 := by
  induction l generalizing k with
  | nil =>
    obtain ⟨u, hu, -⟩ := h
    cases hu
  | cons a rest ih =>
    by_cases ha : a.username = username
    · exact ⟨0, a, by simp, ha, by simp [findRank, ha]⟩
    · obtain ⟨u, hu, hun⟩ := h
      have hrest : ∃ u ∈ rest, u.username = username := by
        rcases List.mem_cons.mp hu with rfl | hm
        · exact absurd hun ha
        · exact ⟨u, hm, hun⟩
      obtain ⟨i, v, hi, hv, hr⟩ := ih (k + 1) hrest
      refine ⟨i + 1, v, by simpa using hi, hv, ?_⟩
      simp only [findRank, ha, if_false, hr]
      omega

/-- With unique usernames a username stands at one position only. -/
theorem username_index_unique (l : List User)
    (hnd : (l.map fun u => u.username).Nodup) (i j : Nat) (u v : User)
    (hi : l[i]? = some u) (hj : l[j]? = some v) (h : u.username = v.username) : i = j := by
  obtain ⟨hil, hiu⟩ := List.getElem?_eq_some_iff.mp hi
  obtain ⟨hjl, hjv⟩ := List.getElem?_eq_some_iff.mp hj
  have hil' : i < (l.map fun u => u.username).length := by simpa using hil
  have hjl' : j < (l.map fun u => u.username).length := by simpa using hjl
  have heq : (l.map fun u => u.username)[i] = (l.map fun u => u.username)[j] := by
    simp only [List.getElem_map, hiu, hjv, h]
  exact (List.Nodup.getElem_inj_iff hnd).mp heq

theorem findOne_of_mem (p : User → Bool) (users : List User) (h : ∃ u ∈ users, p u = true) :
    ∃ uid user, findById users (findOne p users) = some (uid, user) := by
  have hlt := List.findIdx_lt_length_of_exists h
  refine ⟨users.findIdx p, users[users.findIdx p], ?_⟩
  simp [findOne, hlt, findById]

/-- C14. For accounts with unique usernames and a username among them,
`getUserRank` answers with a rank that is at least 1 and is the position of the
username in the order `getLeaderboard` (without role filter) uses: every bucket
entry with the username carries that rank; the classification is Promoter,
Influencer or Ambassador exactly when the username is listed in promoters,
influencers or ambassadors, and `User` exactly when it is in no bucket, which is
when the rank is above 50000. -/
theorem getUserRank_matches_leaderboard (users : List User) (username : String)
    (hnd : (users.map fun u => u.username).Nodup)
    (hmem : username ∈ users.map fun u => u.username) :
    ∃ r, getUserRank users username = some r ∧ 1 ≤ r.rank ∧
      (∃ u, (sortByReferrals (findByRole users none))[r.rank - 1]? = some u ∧
        u.username = username) ∧
      (∀ e, e ∈ (getLeaderboard users none).promoters ++
          (getLeaderboard users none).influencers ++
          (getLeaderboard users none).ambassadors →
        e.username = username → e.rank = r.rank) ∧
      (r.classification = "Promoter" ↔
        ∃ e ∈ (getLeaderboard users none).promoters, e.username = username) ∧
      (r.classification = "Influencer" ↔
        ∃ e ∈ (getLeaderboard users none).influencers, e.username = username) ∧
      (r.classification = "Ambassador" ↔
        ∃ e ∈ (getLeaderboard users none).ambassadors, e.username = username) ∧
      (r.classification = "User" ↔
        ∀ e, e ∈ (getLeaderboard users none).promoters ++
            (getLeaderboard users none).influencers ++
            (getLeaderboard users none).ambassadors → e.username ≠ username) ∧
      (r.classification = "User" ↔ 50000 < r.rank) := by
  have hS : findByRole users none = users := rfl
  have hperm : (sortByReferrals users).Perm users := List.perm_insertionSort referralOrder users
  have hndS : ((sortByReferrals users).map fun u => u.username).Nodup :=
    (hperm.map _).nodup_iff.mpr hnd
  obtain ⟨u0, hu0, hname0⟩ := List.mem_map.mp hmem
  have hexS : ∃ u ∈ sortByReferrals users, u.username = username :=
    ⟨u0, hperm.mem_iff.mpr hu0, hname0⟩
  obtain ⟨i, u, hi, hu, hrank⟩ := findRank_of_mem (sortByReferrals users) 0 username hexS
  obtain ⟨uid, user, hfind⟩ := findOne_of_mem (fun v => v.username == username) users
    ⟨u0, hu0, by simp [hname0]⟩
  have hrank' : findRank (sortByReferrals users) 0 username = i + 1 := by omega
  -- every bucket entry with the username stands at position `i`
  have hpos : ∀ (j : Nat) (v : User), (sortByReferrals users)[j]? = some v →
      v.username = username → j = i := fun j v hj hv =>
    username_index_unique _ hndS j i v u hj hi (hv.trans hu.symm)
  refine ⟨⟨user.username, user.referrals.length, i + 1, classifyRank (i + 1)⟩, ?_, ?_, ?_, ?_,
    ?_, ?_, ?_, ?_, ?_⟩
  · simp only [getUserRank, hfind, hrank']
  · exact Nat.succ_pos i
  · exact ⟨u, by simpa [hS] using hi, hu⟩
  · intro e he hname
    simp only [List.mem_append] at he
    rcases he with (he | he) | he
    · obtain ⟨j, v, hj, -, rfl⟩ := (mem_promoters users none e).mp he
      rw [hpos j v hj hname]
      rfl
    · obtain ⟨j, v, hj, -, rfl⟩ := (mem_influencers users none e).mp he
      rw [hpos j v hj hname]
      rfl
    · obtain ⟨j, v, hj, -, rfl⟩ := (mem_ambassadors users none e).mp he
      rw [hpos j v hj hname]
      rfl
  · show classifyRank (i + 1) = "Promoter" ↔ _
    rw [classifyRank_promoter]
    constructor
    · intro h
      exact ⟨entryOf "Promoter" (i, u), (mem_promoters users none _).mpr ⟨i, u, hi, h, rfl⟩, hu⟩
    · rintro ⟨e, he, hname⟩
      obtain ⟨j, v, hj, hr, rfl⟩ := (mem_promoters users none e).mp he
      rw [← hpos j v hj hname]
      exact hr
  · show classifyRank (i + 1) = "Influencer" ↔ _
    rw [classifyRank_influencer]
    constructor
    · intro h
      exact ⟨entryOf "Influencer" (i, u),
        (mem_influencers users none _).mpr ⟨i, u, hi, h, rfl⟩, hu⟩
    · rintro ⟨e, he, hname⟩
      obtain ⟨j, v, hj, hr, rfl⟩ := (mem_influencers users none e).mp he
      rw [← hpos j v hj hname]
      exact hr
  · show classifyRank (i + 1) = "Ambassador" ↔ _
    rw [classifyRank_ambassador]
    constructor
    · intro h
      exact ⟨entryOf "Ambassador" (i, u),
        (mem_ambassadors users none _).mpr ⟨i, u, hi, h, rfl⟩, hu⟩
    · rintro ⟨e, he, hname⟩
      obtain ⟨j, v, hj, hr, rfl⟩ := (mem_ambassadors users none e).mp he
      rw [← hpos j v hj hname]
      exact hr
  · show classifyRank (i + 1) = "User" ↔ _
    rw [classifyRank_user]
    constructor
    · intro h e he hname
      simp only [List.mem_append] at he
      rcases he with (he | he) | he
      · obtain ⟨j, v, hj, hr, rfl⟩ := (mem_promoters users none e).mp he
        have := hpos j v hj hname
        omega
      · obtain ⟨j, v, hj, hr, rfl⟩ := (mem_influencers users none e).mp he
        have := hpos j v hj hname
        omega
      · obtain ⟨j, v, hj, hr, rfl⟩ := (mem_ambassadors users none e).mp he
        have := hpos j v hj hname
        omega
    · intro hno
      by_contra hle
      have hle' : i + 1 ≤ 50000 := not_lt.mp hle
      by_cases h1 : i + 1 ≤ 5000
      · exact hno (entryOf "Promoter" (i, u))
          (List.mem_append_left _ (List.mem_append_left _
            ((mem_promoters users none _).mpr ⟨i, u, hi, h1, rfl⟩))) hu
      · by_cases h2 : i + 1 ≤ 20000
        · exact hno (entryOf "Influencer" (i, u))
            (List.mem_append_left _ (List.mem_append_right _
              ((mem_influencers users none _).mpr ⟨i, u, hi, ⟨by omega, h2⟩, rfl⟩))) hu
        · exact hno (entryOf "Ambassador" (i, u))
            (List.mem_append_right _
              ((mem_ambassadors users none _).mpr ⟨i, u, hi, ⟨by omega, hle'⟩, rfl⟩)) hu
  · exact classifyRank_user (i + 1)

/-- On the sample of counts [10, 10, 5], `getUserRank` of `ben` answers, with a
rank of at least 1. -/
theorem getUserRank_matches_leaderboard_witness :
    ∃ r, getUserRank sampleBoard "ben" = some r ∧ 1 ≤ r.rank := by
  obtain ⟨r, hr, hpos, -⟩ :=
    getUserRank_matches_leaderboard sampleBoard "ben" (by decide) (by decide)
  exact ⟨r, hr, hpos⟩

/-- The answer of `getUserRank` on the sample: `ben` has rank 2, Promoter. -/
theorem getUserRank_sample :
    getUserRank sampleBoard "ben" = some ⟨"ben", 10, 2, "Promoter"⟩ := by
  rfl

end Tonance
